import Mathlib

/-!
Verification development for the cmirit address-resolution system.

The definitions below are a shallow embedding of the Python sources:
  * `src/AddresInfo/{type,street,address}.py` — the domain model,
  * `src/Rules/{tokenizer_rules,type_rules,address_rules}.py` — the
    tokenizer and the grammar fed to the external `yargy` engine,
  * `src/Linker/{streetsFinder,linker}.py` — the street bank and the linker.

External collaborators are embedded at their boundary:
  * `difflib.get_close_matches(name, keys, 5, 0.55)` is an external
    similarity search; it is passed around as an explicit function
    parameter (`CloseMatches`), as the design notes describe the scorer
    as a pluggable interface.  Theorems that depend on its behaviour
    state that behaviour as a hypothesis, and witnesses instantiate it
    with a function agreeing with `difflib` on the concrete inputs used.
  * the `pymorphy` morphological dictionary behind the tokenizer is an
    explicit oracle parameter (`Morph`).
  * `pandas` dataframes are embedded as lists of typed rows.
  * the `yargy` grammar engine is embedded as a deterministic matcher
    with the semantics the specification gives it: alternatives are
    resolved longest-match-first with declaration order breaking ties,
    matching starts at position 0 and trailing tokens are tolerated.

Python strings are Lean `String`s; `str.upper`/`str.lower` are embedded
for the ASCII and Cyrillic ranges actually used by the program.  The
`CaseType` parameters of the bank and DB lookups are specialized to
their default value `"upper"`, the only value any call site in the
repository uses.
-/

/-- Python `str.lower` restricted to ASCII letters and the Cyrillic
А..Я/Ё block, the only cased characters the program handles. -/
def ruLowerChar (c : Char) : Char :=
  let n := c.toNat
  if 0x410 ≤ n && n ≤ 0x42F then Char.ofNat (n + 0x20)
  else if n == 0x401 then Char.ofNat 0x451
  else if 65 ≤ n && n ≤ 90 then Char.ofNat (n + 32)
  else c

/-- Python `str.upper` restricted to ASCII letters and the Cyrillic
а..я/ё block. -/
def ruUpperChar (c : Char) : Char :=
  let n := c.toNat
  if 0x430 ≤ n && n ≤ 0x44F then Char.ofNat (n - 0x20)
  else if n == 0x451 then Char.ofNat 0x401
  else if 97 ≤ n && n ≤ 122 then Char.ofNat (n - 32)
  else c

/-- Python `str.lower` on a whole string. -/
def ruLower (s : String) : String := String.mk (s.data.map ruLowerChar)

/-- Python `str.upper` on a whole string. -/
def ruUpper (s : String) : String := String.mk (s.data.map ruUpperChar)

/-- Python `str.strip()`: drop leading and trailing whitespace (written
structurally so that proofs can evaluate it). -/
def pyStrip (s : String) : String :=
  String.mk
    (((s.data.dropWhile Char.isWhitespace).reverse.dropWhile
        Char.isWhitespace).reverse)

/-- Python `str.split()` with no argument: split on whitespace runs,
dropping empty pieces (written structurally so that proofs can
evaluate it). -/
def splitWs (s : String) : List String :=
  ((s.data.foldr (fun c acc =>
      if c.isWhitespace then [] :: acc
      else (c :: acc.headD []) :: acc.tail) [[]]).filter
    (fun g => g ≠ [])).map String.mk

/-- Python `" ".join(parts)`. -/
def joinWs (parts : List String) : String := String.intercalate " " parts

/-- Recursion core of Python `str.replace(sub, repl)`: replace every
occurrence of a non-empty `sub`, scanning left to right. -/
def replAux : Nat → List Char → List Char → List Char → List Char
  | _, [], _, _ => []
  | 0, cs, _, _ => cs
  | fuel + 1, c :: cs, sub, repl =>
    if sub ≠ [] ∧ sub.isPrefixOf (c :: cs) then
      repl ++ replAux fuel ((c :: cs).drop sub.length) sub repl
    else c :: replAux fuel cs sub repl

/-- Python `str.replace(sub, repl)` for the non-empty patterns the bank
uses (abbreviation keys are non-empty words). -/
def pyReplace (s sub repl : String) : String :=
  String.mk (replAux s.data.length s.data sub.data repl.data)

/-- Street types of the city, from the `StreetType` enum in
`src/AddresInfo/type.py` (nine variants, each with a full and a short
canonical spelling). -/
inductive StreetType where
  | bulvar | street | liniya | pereulok | ploshad
  | proezd | prospect | shosse | territoria
deriving DecidableEq, Repr

/-- Short canonical spelling of a street type (`_StreetType.short_name`). -/
def StreetType.shortName : StreetType → String
  | .bulvar => "Б-Р"
  | .street => "УЛ."
  | .liniya => "ЛН."
  | .pereulok => "ПЕР."
  | .ploshad => "ПЛ."
  | .proezd => "ПР-Д"
  | .prospect => "ПР-КТ"
  | .shosse => "Ш."
  | .territoria => "ТЕР."

/-- Full spelling of a street type (`_StreetType.name`). -/
def StreetType.fullName : StreetType → String
  | .bulvar => "бульвар"
  | .street => "улица"
  | .liniya => "линия"
  | .pereulok => "переулок"
  | .ploshad => "площадь"
  | .proezd => "проезд"
  | .prospect => "проспект"
  | .shosse => "шоссе"
  | .territoria => "территория"

/-- A street: full name plus optional type (`src/AddresInfo/street.py`).
Python `Street.__eq__` compares both fields, which is definitional
equality here; `Street.copy` returns a field-identical object and is the
identity on values. -/
structure Street where
  name : String
  type : Option StreetType
deriving DecidableEq, Repr

/-- An address (`src/AddresInfo/address.py`): street, house string and
optional flat.  The street and house fields are `Option` because Python
allows `None` in them and `Linker.link` explicitly asserts on that. -/
structure Address where
  street : Option Street
  house : Option String
  flat : Option Int
deriving DecidableEq, Repr

/-- One row of the reference dataset (the pandas dataframe handed to
`Linker.load`, columns Type, Name, House, Flat_start, Flat_end, Key).
`Typ` stands for the `Type` column (`Type` is a Lean keyword). -/
structure Row where
  Typ : String
  Name : String
  House : String
  Flat_start : Int
  Flat_end : Int
  Key : Int
deriving DecidableEq, Repr

/-! ## StreetsFinder (`src/Linker/streetsFinder.py`)

The bank `self.data` is a Python `dict` from spelling to a list of
canonical streets; dicts preserve insertion order, so it is embedded as
an association list. -/

/-- The spelling bank of `StreetsFinder`. -/
abbrev Bank := List (String × List Street)

/-- Modelled from the spec: the abbreviation table
`AbbrsInfo.Abbreviations` imported by `StreetsFinder.__init__` is not
under `src/`; per the spec it is a process-wide static map from a word
to its spelling variants, loaded once and never mutated.  It is taken
as an explicit parameter of the bank operations. -/
abbrev AbbrTable := List (String × List String)

/-- The local helper `_add(key, val)` inside `StreetsFinder.append`:
append `val` to the list at `key` if absent, or create a new singleton
entry. -/
def Bank.add (bank : Bank) (key : String) (val : Street) : Bank :=
  if (List.lookup key bank).isSome then
    bank.map (fun p => if p.1 == key then
      (p.1, if p.2.contains val then p.2 else p.2 ++ [val]) else p)
  else bank ++ [(key, [val])]

/-- `StreetsFinder.append(street)`: add the canonical spelling, then one
derived spelling per abbreviation variant of each word of the name
(Python `str.replace` substitutes every occurrence; the result is
re-split and re-joined to collapse whitespace). -/
def Bank.append (abbrs : AbbrTable) (bank : Bank) (street : Street) : Bank :=
  let bank1 := bank.add street.name street
  (splitWs street.name).foldl (fun b word =>
    match List.lookup word abbrs with
    | some variants =>
      variants.foldl (fun b2 variant =>
        let tmp := joinWs (splitWs (pyReplace street.name word variant))
        b2.add tmp street) b
    | none => b) bank1

/-- `StreetsFinder.remove(street)`: rebuild the dict, keeping pairs that
do not contain the street, deleting the street (first occurrence, via
`v.index`) from longer lists, and dropping pairs whose list was exactly
that one street. -/
def Bank.remove (bank : Bank) (street : Street) : Bank :=
  bank.foldl (fun tmp p =>
    if ¬ p.2.contains street then tmp ++ [p]
    else if p.2.length ≠ 1 then tmp ++ [(p.1, p.2.erase street)]
    else tmp) []

/-- Interface type of `difflib.get_close_matches(name, keys, 5, 0.55)`:
given the query spelling and the bank's keys it returns the close
matches, best first. -/
abbrev CloseMatches := String → List String → List String

/-- `StreetsFinder.find(key)` with its default `CaseType="upper"`:
normalize the query name, take the best close match among the bank's
keys, and return its canonical streets — all of them when there is a
single one or the query has no type, otherwise the first street whose
type equals the query's type (falling off the loop yields Python
`None`, embedded as `none`). -/
def Bank.find (cm : CloseMatches) (bank : Bank) (key : Street) :
    Option (List Street) :=
  let name := ruUpper (pyStrip key.name)
  match cm name (bank.map (fun p => p.1)) with
  | [] => none
  | m :: _ =>
    let variants := (List.lookup m bank).getD []
    if variants.length == 1 || key.type.isNone then some variants
    else
      match variants.find? (fun v => v.type == key.type) with
      | some v => some [v]
      | none => none

/-! ## Linker (`src/Linker/linker.py`) -/

/-- Typed failures of the linker.  `notInDB`, `unresolvedAmbiguity` and
`normalization` are the `LinkerException` subclasses from
`src/Linker/exceptions.py`; `assertionFailed` stands for a Python
`AssertionError` from a failed `assert` statement, which is not a
`LinkerException`. -/
inductive LinkError where
  | notInDB | unresolvedAmbiguity | normalization | assertionFailed
deriving DecidableEq, Repr

/-- Does the error class derive from `LinkerException` (what the
`except LinkerException` clause of `Linker.getkey` catches)? -/
def LinkError.isLinkerException : LinkError → Bool
  | .assertionFailed => false
  | _ => true

/-- The linker state built by `Linker.load`: the reference dataframe and
the street bank derived from it. -/
structure Linker where
  df : List Row
  finder : Bank
deriving DecidableEq

/-- The body of `Linker.__filter_by_flat_range`: collect the keys of the
variants whose inclusive `[Flat_start, Flat_end]` range contains the
flat. -/
def filterByFlatRange (flat : Int) (variants : List Row) : List Int :=
  variants.foldl (fun result v =>
    if v.Flat_start ≤ flat && flat ≤ v.Flat_end then result ++ [v.Key]
    else result) []

/-- The candidate rows of `Linker.__match_with_db` before the flat
filter: rows matching the case-normalized street name and house, then —
when the address carries a street type — also the type's short
spelling.  `CaseType` is its default `"upper"`. -/
def dbCandidates (df : List Row) (street : Street) (house : String) :
    List Row :=
  let v := df.filter (fun r =>
    r.Name == ruUpper street.name && r.House == ruUpper house)
  match street.type with
  | some t => v.filter (fun r => r.Typ == ruUpper t.shortName)
  | none => v

/-- `Linker.__match_with_db` for an address with the given street, house
and flat fields: the surviving candidates' keys, where the flat-range
filter runs only when a flat is present, `require_flat_check` is set and
at least one candidate survived the name/house/type filters. -/
def matchWithDb (df : List Row) (street : Street) (house : String)
    (flat : Option Int) (rfc : Bool) : List Int :=
  let variants := dbCandidates df street house
  match flat with
  | some f =>
    if rfc && decide (0 < variants.length) then filterByFlatRange f variants
    else variants.map (fun v => v.Key)
  | none => variants.map (fun v => v.Key)

/-- `Linker.link(address, require_flat_check)`.  The leading Python
`assert` on the address and its street/house becomes the
`assertionFailed` outcome.  A unique bank candidate is substituted into
a copy of the address and matched against the dataframe; several
candidates are each tried, keeping those with exactly one DB match. -/
def Linker.link (cm : CloseMatches) (L : Linker) (oa : Option Address)
    (rfc : Bool) : Except LinkError Int :=
  match oa with
  | none => .error .assertionFailed
  | some a =>
    match a.street, a.house with
    | some st, some house =>
      match Bank.find cm L.finder st with
      | none => .error .normalization
      | some [] => .error .normalization
      | some [v] =>
        match matchWithDb L.df v house a.flat rfc with
        | [] => .error .notInDB
        | [k] => .ok k
        | _ :: _ :: _ => .error .unresolvedAmbiguity
      | some vs =>
        let res := vs.foldl (fun acc v =>
          match matchWithDb L.df v house a.flat rfc with
          | [k] => acc ++ [k]
          | _ => acc) []
        match res with
        | [] => .error .notInDB
        | [k] => .ok k
        | _ :: _ :: _ => .error .unresolvedAmbiguity
    | _, _ => .error .assertionFailed

/-- `Linker.getkey(address, default_value, require_flat_check)`: call
`link` and turn any `LinkerException` into the default value; any other
exception (a failed `assert`) propagates. -/
def Linker.getkey (cm : CloseMatches) (L : Linker) (oa : Option Address)
    (default : Int) (rfc : Bool) : Except LinkError Int :=
  match Linker.link cm L oa rfc with
  | .ok k => .ok k
  | .error e => if e.isLinkerException then .ok default else .error e

/-! ## Tokenizer (`src/Rules/tokenizer_rules.py`)

Five token rules, tried in order at each position: AlphaNumericWord
(1-3 digits, hyphen, letters), DashedWord (letters-hyphen-letters),
RU (letters), INT (digits), PUNCT (`/` or `-`); any other character is
a separator.  Word tokens receive a normal form and grammeme tags from
the external morphological dictionary, embedded as the oracle `Morph`;
non-word tokens get the lowercased text as normal form and no tags. -/

/-- Kinds of tokens, named after the `TokenRule`s. -/
inductive TKind where
  | anum | dashed | ru | int | punct
deriving DecidableEq, Repr

/-- Morphological information for a word: normal form (lemma, lower
case) and grammeme tags such as NOUN/ADJF/Name/Surn. -/
structure MorphInfo where
  norm : List Char
  grams : List String
deriving DecidableEq, Repr

/-- The external morphological dictionary (pymorphy behind yargy's
`MorphTokenizer`), as an oracle from a word to its tags. -/
abbrev Morph := List Char → MorphInfo

/-- A token: kind, raw text, normal form, grammemes, integer value (for
INT tokens) and the source span `[start, stop)` in the input string. -/
structure Token where
  kind : TKind
  text : List Char
  norm : List Char
  grams : List String
  ival : Int
  start : Nat
  stop : Nat
deriving DecidableEq, Repr

/-- Characters matched by the tokenizer's letter class `[а-яёА-ЯЁ]`. -/
def isRuChar (c : Char) : Bool :=
  let n := c.toNat
  (0x410 ≤ n && n ≤ 0x44F) || n == 0x451 || n == 0x401

/-- Numeric value of a digit run. -/
def digitsVal (ds : List Char) : Nat :=
  ds.foldl (fun a c => a * 10 + (c.toNat - 48)) 0

/-- The tokenizer loop; `fuel` is the length of the input, `pos` the
current offset.  Mirrors the rule priority of `TOKENIZER_RULES`. -/
def tokenizeAux (m : Morph) : Nat → Nat → List Char → List Token
  | 0, _, _ => []
  | _ + 1, _, [] => []
  | fuel + 1, pos, c :: cs =>
    if c.isDigit then
      let ds := (c :: cs).takeWhile Char.isDigit
      let rest := (c :: cs).dropWhile Char.isDigit
      match rest with
      | '-' :: r2 =>
        let ls := r2.takeWhile isRuChar
        if ds.length ≤ 3 && ls.length != 0 then
          let text := ds ++ '-' :: ls
          ⟨.anum, text, text.map ruLowerChar, [], 0, pos, pos + text.length⟩ ::
            tokenizeAux m fuel (pos + text.length) (r2.dropWhile isRuChar)
        else
          ⟨.int, ds, ds, [], Int.ofNat (digitsVal ds), pos, pos + ds.length⟩ ::
            tokenizeAux m fuel (pos + ds.length) rest
      | _ =>
        ⟨.int, ds, ds, [], Int.ofNat (digitsVal ds), pos, pos + ds.length⟩ ::
          tokenizeAux m fuel (pos + ds.length) rest
    else if isRuChar c then
      let ls := (c :: cs).takeWhile isRuChar
      let rest := (c :: cs).dropWhile isRuChar
      match rest with
      | '-' :: r2 =>
        let ls2 := r2.takeWhile isRuChar
        if ls2.length != 0 then
          let text := ls ++ '-' :: ls2
          let mi := m text
          ⟨.dashed, text, mi.norm, mi.grams, 0, pos, pos + text.length⟩ ::
            tokenizeAux m fuel (pos + text.length) (r2.dropWhile isRuChar)
        else
          let mi := m ls
          ⟨.ru, ls, mi.norm, mi.grams, 0, pos, pos + ls.length⟩ ::
            tokenizeAux m fuel (pos + ls.length) rest
      | _ =>
        let mi := m ls
        ⟨.ru, ls, mi.norm, mi.grams, 0, pos, pos + ls.length⟩ ::
          tokenizeAux m fuel (pos + ls.length) rest
    else if c == '/' || c == '-' then
      ⟨.punct, [c], [c], [], 0, pos, pos + 1⟩ :: tokenizeAux m fuel (pos + 1) cs
    else
      tokenizeAux m fuel (pos + 1) cs

/-- Tokenize a raw string. -/
def tokenize (m : Morph) (s : String) : List Token :=
  tokenizeAux m s.data.length 0 s.data

/-! ## Type grammar (`src/Rules/type_rules.py`) -/

/-- Lowercased text of a token (what yargy's caseless predicates see). -/
def lowerT (t : Token) : List Char := t.text.map ruLowerChar

/-- `ULITSA_PREDICATE`: `normalized("улица")` or
`in_caseless({"ул", "у"})`. -/
def pULITSA (t : Token) : Bool :=
  t.norm == "улица".data || ["ул".data, "у".data].contains (lowerT t)

/-- `SHOSSE_PREDICATE`. -/
def pSHOSSE (t : Token) : Bool :=
  t.norm == "шоссе".data || lowerT t == "ш".data

/-- `BULVAR_PREDICATE`. -/
def pBULVAR (t : Token) : Bool :=
  t.norm == "бульвар".data ||
    ["б-р".data, "бр".data, "б".data].contains (lowerT t)

/-- `LINIYA_PREDICATE`. -/
def pLINIYA (t : Token) : Bool :=
  t.norm == "линия".data ||
    ["л-н".data, "лн".data, "л".data].contains (lowerT t)

/-- `PEREULOK_PREDICATE`. -/
def pPEREULOK (t : Token) : Bool :=
  t.norm == "переулок".data || ["пер".data, "пр".data].contains (lowerT t)

/-- `PROSPECT_PREDICATE`. -/
def pPROSPECT (t : Token) : Bool :=
  t.norm == "проспект".data ||
    ["пр-кт".data, "пр".data, "пркт".data].contains (lowerT t)

/-- `PROEZD_PREDICATE`. -/
def pPROEZD (t : Token) : Bool :=
  t.norm == "проезд".data ||
    ["пр-д".data, "прд".data, "пр".data].contains (lowerT t)

/-- `PLOSHAD_PREDICATE`. -/
def pPLOSHAD (t : Token) : Bool :=
  t.norm == "площадь".data || ["плщ".data, "пл".data].contains (lowerT t)

/-- `TERRITORIA_PREDICATE`. -/
def pTERRITORIA (t : Token) : Bool :=
  t.norm == "территория".data || lowerT t == "тер".data

/-- The `TYPE_RULE` alternation, in its declared order (ULITSA, SHOSSE,
BULVAR, LINIYA, PEREULOK, PROSPECT, PROEZD, PLOSHAD, TERRITORIA), with
each branch's interpretation constant. -/
def typeConstRule (t : Token) : Option String :=
  if pULITSA t then some "УЛ."
  else if pSHOSSE t then some "Ш."
  else if pBULVAR t then some "Б-Р"
  else if pLINIYA t then some "ЛН."
  else if pPEREULOK t then some "ПЕР."
  else if pPROSPECT t then some "ПР-КТ"
  else if pPROEZD t then some "ПР-Д"
  else if pPLOSHAD t then some "ПЛ."
  else if pTERRITORIA t then some "ТЕР."
  else none

/-- The `TYPE` alternation used inside the address grammar; its declared
order differs from `TYPE_RULE` (PROSPECT before PEREULOK). -/
def typeConstAddr (t : Token) : Option String :=
  if pULITSA t then some "УЛ."
  else if pSHOSSE t then some "Ш."
  else if pBULVAR t then some "Б-Р"
  else if pLINIYA t then some "ЛН."
  else if pPROSPECT t then some "ПР-КТ"
  else if pPEREULOK t then some "ПЕР."
  else if pPROEZD t then some "ПР-Д"
  else if pPLOSHAD t then some "ПЛ."
  else if pTERRITORIA t then some "ТЕР."
  else none

/-- Typed failures of parsing.  `assertionFailed` is a Python
`AssertionError`; `unparseable` is `ValueError("Не удалось разобрать
входную строку на адрес.")`; `typeUnrecognized` and `typeUnknown` are
the two distinct `ValueError`s of `StreetType.fromStr`. -/
inductive ParseErr where
  | assertionFailed | unparseable | typeUnrecognized | typeUnknown
deriving DecidableEq, Repr

/-- `StreetType.fromStr`: match the type grammar against the tokenized
value (a single-token rule, so only the first token matters), then map
the interpretation constant to the enum variant; an unmatched input is
the "type not recognized" failure, an unmapped constant the
(should-not-happen) "unknown street type" failure. -/
def StreetType.fromStr (m : Morph) (value : String) :
    Except ParseErr StreetType :=
  match tokenize m value with
  | [] => .error .typeUnrecognized
  | t :: _ =>
    match typeConstRule t with
    | none => .error .typeUnrecognized
    | some v =>
      if v == "УЛ." then .ok .street
      else if v == "Ш." then .ok .shosse
      else if v == "Б-Р" then .ok .bulvar
      else if v == "ЛН." then .ok .liniya
      else if v == "ПЕР." then .ok .pereulok
      else if v == "ПР-КТ" then .ok .prospect
      else if v == "ПР-Д" then .ok .proezd
      else if v == "ПЛ." then .ok .ploshad
      else if v == "ТЕР." then .ok .territoria
      else .error .typeUnknown

/-! ## Address grammar (`src/Rules/address_rules.py`)

Embedded as a deterministic matcher with the engine semantics of the
spec: a parser consumes a prefix of the token stream; alternatives are
resolved by `pickLonger` — the alternative consuming the most tokens
wins and declaration order breaks ties; `optional` consumes the match
when there is one. -/

/-- A parser over the token stream: a matched value plus the remaining
tokens, or no match. -/
abbrev P (α : Type) := List Token → Option (α × List Token)

/-- Resolve two alternatives: longest match wins, the first wins ties. -/
def pickLonger {α : Type} :
    Option (α × List Token) → Option (α × List Token) →
    Option (α × List Token)
  | none, r => r
  | some b, none => some b
  | some b, some r => if r.2.length < b.2.length then some r else some b

/-- Ordered alternative of two parsers. -/
def pAlt {α : Type} (p q : P α) : P α := fun ts => pickLonger (p ts) (q ts)

/-- Single-token rule from a predicate. -/
def pTok (pred : Token → Bool) : P Token := fun ts =>
  match ts with
  | t :: r => if pred t then some (t, r) else none
  | [] => none

/-- Single-token rule returning its one-token span. -/
def pTok1 (pred : Token → Bool) : P (List Token) := fun ts =>
  match ts with
  | t :: r => if pred t then some ([t], r) else none
  | [] => none

/-- Sequencing of two span-producing rules. -/
def pSeqSpan (p q : P (List Token)) : P (List Token) := fun ts =>
  match p ts with
  | some (s1, r1) =>
    match q r1 with
    | some (s2, r2) => some (s1 ++ s2, r2)
    | none => none
  | none => none

/-- `INDEX`: an integer in `[100000, 999999]`. -/
def pINDEX : P Unit := fun ts =>
  (pTok (fun t =>
    t.kind == .int && 100000 ≤ t.ival && t.ival ≤ 999999) ts).map
    (fun p => ((), p.2))

/-- `COUNTRY` predicate: `dictionary({"россия"})` or
`in_caseless({"рф"})`. -/
def isCountry (t : Token) : Bool :=
  t.norm == "россия".data || lowerT t == "рф".data

/-- `REGION_WORD`: `morph_pipeline(["область", "обл"])`. -/
def isRegionWord (t : Token) : Bool :=
  ["область".data, "обл".data].contains t.norm

/-- `REGION_NAME` predicate: `dictionary({"Вологодская", "во"})`. -/
def isRegionName (t : Token) : Bool :=
  ["вологодская".data, "во".data].contains t.norm

/-- `REGION`: name alone, name+word or word+name. -/
def pREGION : P Unit :=
  pAlt (fun ts => (pTok isRegionName ts).map (fun p => ((), p.2)))
    (pAlt
      (fun ts =>
        match pTok isRegionName ts with
        | some (_, r1) => (pTok isRegionWord r1).map (fun p => ((), p.2))
        | none => none)
      (fun ts =>
        match pTok isRegionWord ts with
        | some (_, r1) => (pTok isRegionName r1).map (fun p => ((), p.2))
        | none => none))

/-- `CITY_WORD`: `normalized("город")`, `normalized("гор")` or
`caseless("г")`. -/
def isCityWord (t : Token) : Bool :=
  t.norm == "город".data || t.norm == "гор".data || lowerT t == "г".data

/-- `CITY_NAME_PREDICATE`: `normalized("череповец")`. -/
def isCityName (t : Token) : Bool := t.norm == "череповец".data

/-- `CITY`: name+word, word+name, or name alone (declared order). -/
def pCITY : P Unit :=
  pAlt
    (fun ts =>
      match pTok isCityName ts with
      | some (_, r1) => (pTok isCityWord r1).map (fun p => ((), p.2))
      | none => none)
    (pAlt
      (fun ts =>
        match pTok isCityWord ts with
        | some (_, r1) => (pTok isCityName r1).map (fun p => ((), p.2))
        | none => none)
      (fun ts => (pTok isCityName ts).map (fun p => ((), p.2))))

/-- Sequencing of two unit rules. -/
def pSeqU (p q : P Unit) : P Unit := fun ts =>
  match p ts with
  | some (_, r1) => q r1
  | none => none

/-- `HIGHLEVEL_PARTS`: the twelve declared combinations of index,
country, region and city. -/
def pHIGHLEVEL : P Unit :=
  pAlt (pSeqU pINDEX (pSeqU pCOUNTRY (pSeqU pREGION pCITY)))
  (pAlt (pSeqU pCOUNTRY (pSeqU pINDEX (pSeqU pREGION pCITY)))
  (pAlt (pSeqU pINDEX (pSeqU pCOUNTRY pCITY))
  (pAlt (pSeqU pINDEX (pSeqU pREGION pCITY))
  (pAlt (pSeqU pINDEX pCOUNTRY)
  (pAlt (pSeqU pCOUNTRY (pSeqU pREGION pCITY))
  (pAlt (pSeqU pINDEX pCITY)
  (pAlt (pSeqU pREGION pCITY)
  (pAlt pINDEX
  (pAlt pCOUNTRY
  (pAlt pCITY pREGION))))))))))
where
  /-- `COUNTRY` as a unit rule. -/
  pCOUNTRY : P Unit := fun ts =>
    (pTok isCountry ts).map (fun p => ((), p.2))

/-- `DOM_WORD`: `normalized("дом")` or `caseless("д")`. -/
def isDomWord (t : Token) : Bool :=
  t.norm == "дом".data || lowerT t == "д".data

/-- `HOUSE_LETTER`: `in_caseless(set("абвгдеёжзий"))` — a single-letter
token from that set. -/
def isHouseLetter (t : Token) : Bool :=
  match t.text with
  | [c] => ['а', 'б', 'в', 'г', 'д', 'е', 'ё', 'ж', 'з', 'и', 'й'].contains
      (ruLowerChar c)
  | _ => false

/-- `NON_NEGATIVE_INT`: an INT token with value in `[0, 1001]`. -/
def isNNI (t : Token) : Bool :=
  t.kind == .int && 0 ≤ t.ival && t.ival ≤ 1001

/-- `NON_NEGATIVE_INT` as a token rule. -/
def pNNI : P Token := pTok isNNI

/-- `eq("/")`. -/
def isSlash (t : Token) : Bool := t.text == ['/']

/-- `eq("-")`. -/
def isDash (t : Token) : Bool := t.text == ['-']

/-- `eq(",")` (a comma never survives tokenization, kept faithfully). -/
def isComma (t : Token) : Bool := t.text == [',']

/-- `DOM_NUMBER`: `N[letter]/M[letter]` or `N[letter]`, returning the
captured house span (the `AddressFact.House` interpretation). -/
def pDomNumber : P (List Token) := fun ts =>
  let alt1 :=
    match pNNI ts with
    | some (t1, r1) =>
      let ol1 := match pTok isHouseLetter r1 with
        | some (u, r) => ([u], r)
        | none => (([] : List Token), r1)
      match pTok isSlash ol1.2 with
      | some (s, r3) =>
        match pNNI r3 with
        | some (t2, r4) =>
          let ol2 := match pTok isHouseLetter r4 with
            | some (u, r) => ([u], r)
            | none => (([] : List Token), r4)
          some (t1 :: ol1.1 ++ s :: t2 :: ol2.1, ol2.2)
        | none => none
      | none => none
    | none => none
  let alt2 :=
    match pNNI ts with
    | some (t1, r1) =>
      match pTok isHouseLetter r1 with
      | some (u, r2) => some ([t1, u], r2)
      | none => some ([t1], r1)
    | none => none
  pickLonger alt1 alt2

/-- `DOM`: the house number, optionally preceded or followed by the
house keyword; the capture is the `DOM_NUMBER` span. -/
def pDOM : P (List Token) :=
  pAlt pDomNumber
    (pAlt
      (fun ts =>
        match pTok isDomWord ts with
        | some (_, r1) => pDomNumber r1
        | none => none)
      (fun ts =>
        match pDomNumber ts with
        | some (sp, r1) =>
          match pTok isDomWord r1 with
          | some (_, r2) => some (sp, r2)
          | none => none
        | none => none))

/-- `KORPUS_WORD`: `caseless_pipeline(["корпус", "корп", "кор", "к"])`. -/
def isKorpusWord (t : Token) : Bool :=
  ["корпус".data, "корп".data, "кор".data, "к".data].contains (lowerT t)

/-- `KORPUS`: keyword then number; captures the number token. -/
def pKORPUS : P Token := fun ts =>
  match pTok isKorpusWord ts with
  | some (_, r1) => pNNI r1
  | none => none

/-- `STROENIE_WORD`: `caseless_pipeline(["строение", "стр", "с"])`. -/
def isStroenieWord (t : Token) : Bool :=
  ["строение".data, "стр".data, "с".data].contains (lowerT t)

/-- `STROENIE`: keyword then number; captures the number token. -/
def pSTROENIE : P Token := fun ts =>
  match pTok isStroenieWord ts with
  | some (_, r1) => pNNI r1
  | none => none

/-- `KVARTIRA_WORD`: `normalized("квартира")` or `caseless("кв")`. -/
def isKvartiraWord (t : Token) : Bool :=
  t.norm == "квартира".data || lowerT t == "кв".data

/-- `KVARTIRA`: bare number, keyword+number, or number+keyword;
captures the flat number token. -/
def pKVARTIRA : P Token :=
  pAlt pNNI
    (pAlt
      (fun ts =>
        match pTok isKvartiraWord ts with
        | some (_, r1) => pNNI r1
        | none => none)
      (fun ts =>
        match pNNI ts with
        | some (t, r1) =>
          match pTok isKvartiraWord r1 with
          | some (_, r2) => some (t, r2)
          | none => none
        | none => none))

/-- Captures of the house part: house span plus optional corpus and
stroenie number tokens. -/
structure HCap where
  house : List Token
  corpus : Option Token
  stroenie : Option Token
deriving DecidableEq, Repr

/-- `FULL_HOUSE_VARIANT`: house with optional stroenie then optional
corpus, or house, corpus, stroenie. -/
def pFHV : P HCap :=
  pAlt
    (fun ts =>
      match pDOM ts with
      | some (sp, r1) =>
        let ost := match pSTROENIE r1 with
          | some (x, r) => (some x, r)
          | none => ((none : Option Token), r1)
        let oko := match pKORPUS ost.2 with
          | some (x, r) => (some x, r)
          | none => ((none : Option Token), ost.2)
        some (⟨sp, oko.1, ost.1⟩, oko.2)
      | none => none)
    (fun ts =>
      match pDOM ts with
      | some (sp, r1) =>
        match pKORPUS r1 with
        | some (k, r2) =>
          match pSTROENIE r2 with
          | some (st, r3) => some (⟨sp, some k, some st⟩, r3)
          | none => none
        | none => none
      | none => none)

/-- Captures of the whole building section. -/
structure BCap where
  house : List Token
  corpus : Option Token
  stroenie : Option Token
  flat : Option Token
deriving DecidableEq, Repr

/-- `BUILDING`: full house variant, full house variant plus flat, house
dash/comma flat, or flat then house (declared order). -/
def pBUILDING : P BCap :=
  pAlt
    (fun ts => (pFHV ts).map (fun p =>
      (⟨p.1.house, p.1.corpus, p.1.stroenie, none⟩, p.2)))
    (pAlt
      (fun ts =>
        match pFHV ts with
        | some (h, r1) => (pKVARTIRA r1).map (fun p =>
            (⟨h.house, h.corpus, h.stroenie, some p.1⟩, p.2))
        | none => none)
      (pAlt
        (fun ts =>
          match pDOM ts with
          | some (sp, r1) =>
            match pTok (fun t => isDash t || isComma t) r1 with
            | some (_, r2) => (pKVARTIRA r2).map (fun p =>
                (⟨sp, none, none, some p.1⟩, p.2))
            | none => none
          | none => none)
        (fun ts =>
          match pKVARTIRA ts with
          | some (f, r1) => (pDOM r1).map (fun p =>
              (⟨p.1, none, none, some f⟩, p.2))
          | none => none)))

/-- `NOT_STREET_TYPE_OR_OTHER_KEYWORD`, negated form: is the token a
street-type keyword (territory excluded, as in the source) or another
reserved word? -/
def isReservedWord (t : Token) : Bool :=
  pULITSA t || pSHOSSE t || pBULVAR t || pLINIYA t || pPEREULOK t ||
  pPROSPECT t || pPROEZD t || pPLOSHAD t ||
  isDomWord t || isKvartiraWord t || isCityWord t || isCityName t

/-- `NOUN_BUT_NO_STREET_TYPE`. -/
def isNounNT (t : Token) : Bool :=
  t.grams.contains "NOUN" && !(isReservedWord t)

/-- `ADJF_BUT_NO_STREET_TYPE`. -/
def isAdjfNT (t : Token) : Bool :=
  t.grams.contains "ADJF" && !(isReservedWord t)

/-- `ANUM`: an alphanumeric-compound token. -/
def isAnum (t : Token) : Bool := t.kind == .anum

/-- `IMENI`: `dictionary({"имени", "им"})`. -/
def isImeni (t : Token) : Bool :=
  ["имени".data, "им".data].contains t.norm

/-- `LETTER`: `in_caseless(set("абвгдеёжзиклмнопрстуфхшщэюя"))` -
a single-letter token (note the source set omits й, ц, ч, ы, ь, ъ). -/
def isLetterAbbr (t : Token) : Bool :=
  match t.text with
  | [c] => ['а', 'б', 'в', 'г', 'д', 'е', 'ё', 'ж', 'з', 'и', 'к', 'л',
      'м', 'н', 'о', 'п', 'р', 'с', 'т', 'у', 'ф', 'х', 'ш', 'щ', 'э',
      'ю', 'я'].contains (ruLowerChar c)
  | _ => false

/-- `gram("Name")`. -/
def isNameGram (t : Token) : Bool := t.grams.contains "Name"

/-- `gram("Surn")`. -/
def isSurn (t : Token) : Bool := t.grams.contains "Surn"

/-- `SPECIAL_PREFIX` dictionary. -/
def isSpecialPref (t : Token) : Bool :=
  ["имени".data, "им".data, "протоиерея".data, "партизана".data,
   "космонавта".data, "карла".data, "розы".data, "максима".data,
   "командарма".data, "сергея".data, "городского".data,
   "набережная".data, "соловецких".data, "подстанции".data].contains
    t.norm

/-- `TERRITORY_PREFIX` dictionary. -/
def isTerritoryPref (t : Token) : Bool :=
  ["тер.".data, "территория".data, "территор".data, "тер".data].contains
    t.norm

/-- `PERSON`: initial+surname, name+surname, surname+name, or bare
surname (declared order); returns the matched span. -/
def pPERSON : P (List Token) :=
  pAlt (pSeqSpan (pTok1 isLetterAbbr) (pTok1 isSurn))
    (pAlt (pSeqSpan (pTok1 isNameGram) (pTok1 isSurn))
      (pAlt (pSeqSpan (pTok1 isSurn) (pTok1 isNameGram))
        (pTok1 isSurn)))

/-- Ordered alternation of a list of rules (longest match wins,
declaration order breaks ties). -/
def pAlts {α : Type} (ps : List (P α)) : P α := fun ts =>
  ps.foldl (fun acc p => pickLonger acc (p ts)) none

/-- `STREET_NAME`: the declared alternatives, in order, producing the
captured name span. -/
def pStreetName : P (List Token) :=
  pAlts
    [pSeqSpan (pTok1 isAnum) (pAlt (pTok1 isAdjfNT) (pTok1 isNounNT)),
     pSeqSpan (pTok1 isAdjfNT) (pTok1 isNounNT),
     pTok1 isNounNT,
     pSeqSpan (pTok1 isImeni) pPERSON,
     pSeqSpan pPERSON (pTok1 isImeni),
     pSeqSpan (pTok1 isNounNT) (pTok1 isNounNT),
     pSeqSpan (pTok1 isAdjfNT) (pTok1 isAdjfNT),
     pTok1 isAdjfNT,
     pTok1 isAnum,
     pPERSON,
     pSeqSpan (pTok1 isNounNT) (pTok1 isAdjfNT),
     pSeqSpan (pTok1 isAdjfNT) (pTok1 isNounNT),
     pSeqSpan (pTok1 isImeni) (pSeqSpan (pTok1 isSpecialPref)
       (pTok1 isNounNT)),
     pSeqSpan (pTok1 isImeni) (pSeqSpan (pTok1 isSpecialPref)
       (pTok1 isAdjfNT)),
     pSeqSpan (pTok1 isImeni) (pSeqSpan (pTok1 isSpecialPref)
       (pSeqSpan (pTok1 isNounNT) (pTok1 isNounNT))),
     pSeqSpan (pTok1 isImeni) (pSeqSpan (pTok1 isSpecialPref)
       (pSeqSpan (pTok1 isAdjfNT) (pTok1 isNounNT))),
     pSeqSpan (pTok1 isImeni) (pSeqSpan (pTok1 isSpecialPref)
       (pSeqSpan (pTok1 isNounNT) (pTok1 isAdjfNT))),
     pSeqSpan (pTok1 isImeni) (pSeqSpan (pTok1 isSpecialPref)
       (pSeqSpan (pTok1 isAdjfNT) (pTok1 isAdjfNT)))]

/-- The captured street fact: name span and optional type constant
(`Typ` stands for the `Street.Type` slot; `Type` is a Lean keyword). -/
structure StreetFactT where
  Name : List Token
  Typ : Option String
deriving DecidableEq, Repr

/-- `TYPE` as a rule capturing its constant. -/
def pTYPE : P String := fun ts =>
  match ts with
  | t :: r =>
    match typeConstAddr t with
    | some v => some (v, r)
    | none => none
  | [] => none

/-- `STREET`: type+name, name, name+type, or territory-prefix+name
(declared order). -/
def pSTREET : P StreetFactT :=
  pAlt
    (fun ts =>
      match pTYPE ts with
      | some (v, r1) => (pStreetName r1).map (fun p => (⟨p.1, some v⟩, p.2))
      | none => none)
    (pAlt
      (fun ts => (pStreetName ts).map (fun p => (⟨p.1, none⟩, p.2)))
      (pAlt
        (fun ts =>
          match pStreetName ts with
          | some (sp, r1) => (pTYPE r1).map (fun p => (⟨sp, some p.1⟩, p.2))
          | none => none)
        (fun ts =>
          match pTok1 isTerritoryPref ts with
          | some (_, r1) => (pStreetName r1).map (fun p =>
              (⟨p.1, none⟩, p.2))
          | none => none)))

/-- The captured address fact (slots relevant to the domain model). -/
structure AddressFactT where
  Street : Option StreetFactT
  House : Option (List Token)
  Corpus : Option Token
  Stroenie : Option Token
  Flat : Option Token
deriving DecidableEq, Repr

/-- `ADDRESS`: optional high-level prefix, then street, then building;
trailing tokens are tolerated. -/
def pADDRESS (ts : List Token) : Option AddressFactT :=
  let r0 := match pHIGHLEVEL ts with
    | some (_, r) => r
    | none => ts
  match pSTREET r0 with
  | some (sf, r1) =>
    match pBUILDING r1 with
    | some (b, _) =>
      some ⟨some sf, some b.house, b.corpus, b.stroenie, b.flat⟩
    | none => none
  | none => none

/-- Rendering of a captured span: the original substring covered by the
span (what a yargy attribute value holds). -/
def renderSpan (s : String) (span : List Token) : String :=
  match span.head?, span.getLast? with
  | some a, some b => String.mk ((s.data.drop a.start).take (b.stop - a.start))
  | _, _ => ""

/-- `Address.fromStr`: assert a non-empty stripped string, tokenize and
match the address grammar, then fold the fact into an `Address`
(corpus and stroenie appended to the house as `К. n` / `СТР. n`).  The
nested street type, when captured, is parsed with `StreetType.fromStr`
and its failure would propagate. -/
def Address.fromStr (m : Morph) (s : String) : Except ParseErr Address :=
  if pyStrip s == "" then .error .assertionFailed
  else
    match pADDRESS (tokenize m s) with
    | none => .error .unparseable
    | some fact =>
      let sf := fact.Street.getD ⟨[], none⟩
      match (match sf.Typ with
             | some tstr => (StreetType.fromStr m tstr).map some
             | none => Except.ok none) with
      | .error e => .error e
      | .ok ty =>
        let street : Street := ⟨renderSpan s sf.Name, ty⟩
        let flat := fact.Flat.map (fun t => t.ival)
        let house0 := renderSpan s (fact.House.getD [])
        let house1 := match fact.Corpus with
          | some c => house0 ++ " " ++ ("К. " ++ String.mk c.text)
          | none => house0
        let house2 := match fact.Stroenie with
          | some c => house1 ++ " " ++ ("СТР. " ++ String.mk c.text)
          | none => house1
        .ok ⟨some street, some house2, flat⟩

/-- `Linker.__parse_metadata`: build the street bank from the dataframe,
parsing each row's Type column; a row whose type fails to parse
propagates the failure out of `Linker.load`. -/
def Linker.parseMetadata (m : Morph) (abbrs : AbbrTable) (df : List Row) :
    Except ParseErr Bank :=
  df.foldlM (fun finder row =>
    (StreetType.fromStr m row.Typ).map (fun t =>
      Bank.append abbrs finder ⟨row.Name, some t⟩)) []

/-- `Linker.load`: the column assertion is satisfied by construction of
`Row`; the linker carries the dataframe and the derived bank. -/
def Linker.load (m : Morph) (abbrs : AbbrTable) (df : List Row) :
    Except ParseErr Linker :=
  (Linker.parseMetadata m abbrs df).map (fun f => ⟨df, f⟩)

/-! ## Object-store model of `Linker.link`

Python `Address` objects are mutable; `link` mutates only temporary
objects created by `Address.copy()`.  To state that the caller's object
is untouched, `link` is re-traced over an explicit object store: a list
of `Address` records addressed by position, where `Address.copy()`
allocates a fresh record at the end of the store (`Street.copy` yields
a value-identical street, and no code in the traced region mutates a
`Street`, so streets stay values) and the assignment
`tmp_addr.street = v` is a store update at the fresh index. -/

/-- An absent/default address object used for out-of-store lookups. -/
def Address.nil : Address := ⟨none, none, none⟩

/-- One iteration of the multi-candidate loop of `Linker.link`, over the
store: `tmp_addr = address.copy(); tmp_addr.street = v;
m = __match_with_db(tmp_addr, rfc); if len(m) == 1: res.append(m[0])`. -/
def linkStep (df : List Row) (i : Nat) (rfc : Bool)
    (p : List Int × List Address) (v : Street) :
    List Int × List Address :=
  let (acc, σ) := p
  let a := σ.getD i Address.nil
  let tid := σ.length
  let σ1 := σ ++ [⟨a.street, a.house, a.flat⟩]
  let σ2 := σ1.set tid { σ1.getD tid Address.nil with street := some v }
  let t := σ2.getD tid Address.nil
  let ms := matchWithDb df (t.street.getD ⟨"", none⟩) (t.house.getD "")
    t.flat rfc
  (match ms with
   | [k] => acc ++ [k]
   | _ => acc, σ2)

/-- `Linker.link` re-traced over the object store; `i` is the position
of the caller's address object.  Returns the outcome together with the
final store. -/
def Linker.linkSt (cm : CloseMatches) (L : Linker) (σ : List Address)
    (i : Nat) (rfc : Bool) : Except LinkError Int × List Address :=
  let a := σ.getD i Address.nil
  match a.street, a.house with
  | some st, some _ =>
    match Bank.find cm L.finder st with
    | none => (.error .normalization, σ)
    | some [] => (.error .normalization, σ)
    | some [v] =>
      let tid := σ.length
      let σ1 := σ ++ [⟨a.street, a.house, a.flat⟩]
      let σ2 := σ1.set tid { σ1.getD tid Address.nil with street := some v }
      let t := σ2.getD tid Address.nil
      let ms := matchWithDb L.df (t.street.getD ⟨"", none⟩) (t.house.getD "")
        t.flat rfc
      (match ms with
       | [] => .error .notInDB
       | [k] => .ok k
       | _ :: _ :: _ => .error .unresolvedAmbiguity, σ2)
    | some vs =>
      let r := vs.foldl (linkStep L.df i rfc) ([], σ)
      (match r.1 with
       | [] => .error .notInDB
       | [k] => .ok k
       | _ :: _ :: _ => .error .unresolvedAmbiguity, r.2)
  | _, _ => (.error .assertionFailed, σ)

/-! ## Operation sequences on the street bank

Used to state the bank invariant: any state reachable from the empty
bank by `append`/`remove` operations. -/

/-- One bank operation. -/
inductive BankOp where
  | app (s : Street)
  | rem (s : Street)

/-- Run a sequence of operations from the empty bank. -/
def runOps (abbrs : AbbrTable) (ops : List BankOp) : Bank :=
  ops.foldl (fun b op =>
    match op with
    | .app s => Bank.append abbrs b s
    | .rem s => Bank.remove b s) []

/-! ## Concrete instances used by witnesses and counterexamples -/

/-- A neutral morphological oracle: lowercased text as normal form, no
grammemes (what pymorphy reports for out-of-vocabulary words). -/
def mNeutral : Morph := fun w => ⟨w.map ruLowerChar, []⟩

/-- An oracle tagging the two street names used in concrete runs the
way pymorphy tags them. -/
def mTag : Morph := fun w =>
  let lw := w.map ruLowerChar
  if lw == "советский".data then ⟨lw, ["ADJF"]⟩
  else if lw == "металлургов".data then ⟨lw, ["NOUN"]⟩
  else ⟨lw, []⟩

/-- A similarity function agreeing with
`difflib.get_close_matches(q, keys, 5, 0.55)` on inputs where the query
is itself a key: the exact key has ratio 1.0, strictly above every
other candidate, so it comes back first. -/
def cmExact : CloseMatches := fun q keys =>
  if keys.contains q then [q] else []

/-- A two-row reference dataset: one street known under two types. -/
def dfTwoTypes : List Row :=
  [⟨"УЛ.", "МЕТАЛЛУРГОВ", "2", 1, 48, 101⟩,
   ⟨"ПЛ.", "МЕТАЛЛУРГОВ", "5", 1, 41, 202⟩]

/-- A dataset where two rows share Name, Type and House and differ only
in their flat ranges (a subdivided building). -/
def dfShared : List Row :=
  [⟨"УЛ.", "ПОБЕДЫ", "10", 1, 5, 1⟩,
   ⟨"УЛ.", "ПОБЕДЫ", "10", 6, 9, 2⟩]

/-- A one-row reference dataset. -/
def dfOne : List Row := [⟨"УЛ.", "ПОБЕДЫ", "10", 1, 5, 7⟩]

/-- A bank whose single spelling maps to two canonical streets of the
same type (reachable when two distinct names share a derived spelling). -/
def bankPair : Bank :=
  [("К", [⟨"А", some .street⟩, ⟨"Б", some .street⟩])]

/-- The bank `Linker.load` builds from `dfOne`. -/
def bankOne : Bank := [("ПОБЕДЫ", [⟨"ПОБЕДЫ", some .street⟩])]

/-- The bank `Linker.load` builds from `dfTwoTypes`: one spelling, two
canonical streets. -/
def bankTwo : Bank :=
  [("МЕТАЛЛУРГОВ", [⟨"МЕТАЛЛУРГОВ", some .street⟩,
                    ⟨"МЕТАЛЛУРГОВ", some .ploshad⟩])]

/-! ## Verification predicates for the grammar bounds

These predicates are proof apparatus for the number-range property of
the building section: a well-formedness fact about tokenizer output and
the bound carried by captured slots. -/

/-- A token is well formed when, if its kind is INT, its text is a
non-empty digit run (true of every tokenizer-produced token). -/
def TokWF (t : Token) : Prop :=
  t.kind = .int → t.text ≠ [] ∧ ∀ c ∈ t.text, 48 ≤ c.toNat ∧ c.toNat ≤ 57

/-- Every token of the stream is well formed. -/
def StreamWF (ts : List Token) : Prop := ∀ t ∈ ts, TokWF t

/-- Every INT token of a captured span has value in `[0, 1001]`. -/
def SpanOk (span : List Token) : Prop :=
  ∀ t ∈ span, t.kind = .int → 0 ≤ t.ival ∧ t.ival ≤ 1001

/-- A captured number slot, when present, has value in `[0, 1001]`. -/
def NumOk (o : Option Token) : Prop :=
  ∀ t, o = some t → 0 ≤ t.ival ∧ t.ival ≤ 1001

/-- All building-section captures of an address fact are bounded. -/
def FactOk (f : AddressFactT) : Prop :=
  (∀ span, f.House = some span → SpanOk span) ∧
  NumOk f.Corpus ∧ NumOk f.Stroenie ∧ NumOk f.Flat

/-- A parser only ever hands back a suffix of its input as the
remaining stream. -/
def SufP {α : Type} (p : P α) : Prop :=
  ∀ ts a rest, p ts = some (a, rest) → rest.IsSuffix ts

/-! # Theorems -/

/-- Helper: the collection loop of `Linker.link`'s multi-candidate
branch is a `filterMap` keeping the key of every candidate that yields
exactly one DB match. -/
theorem link_collect_eq (df : List Row) (house : String) (flat : Option Int)
    (rfc : Bool) (vs : List Street) :
    ∀ acc : List Int,
      vs.foldl (fun acc v =>
        match matchWithDb df v house flat rfc with
        | [k] => acc ++ [k]
        | _ => acc) acc =
      acc ++ vs.filterMap (fun v =>
        match matchWithDb df v house flat rfc with
        | [k] => some k
        | _ => none) := by
  induction vs with
  | nil => intro acc; simp
  | cons v vs ih =>
    intro acc
    rcases hm : matchWithDb df v house flat rfc with _ | ⟨k, _ | ⟨k2, tl⟩⟩ <;>
      simp [hm, ih]

/-- C2: when `StreetsFinder.find` returns more than one candidate
canonical street, `Linker.link` substitutes each candidate into a copy
of the address, keeps exactly the candidates yielding one DB match, and
maps zero kept to the not-in-reference failure, one kept to its key,
and several kept to the unresolved-ambiguity failure. -/
theorem link_multi_candidate_policy (cm : CloseMatches) (L : Linker)
    (st : Street) (house : String) (flat : Option Int) (rfc : Bool)
    (vs : List Street)
    (hfind : Bank.find cm L.finder st = some vs)
    (hlen : 1 < vs.length) :
    Linker.link cm L (some ⟨some st, some house, flat⟩) rfc =
      (match vs.filterMap (fun v =>
        match matchWithDb L.df v house flat rfc with
        | [k] => some k
        | _ => none) with
      | [] => .error .notInDB
      | [k] => .ok k
      | _ :: _ :: _ => .error .unresolvedAmbiguity) := by
  match vs, hlen with
  | v1 :: v2 :: rest, _ =>
    simp only [Linker.link, hfind, link_collect_eq, List.nil_append]

/-- Helper: the flat-range loop collects exactly the keys of the rows
whose inclusive range contains the flat. -/
theorem filterByFlatRange_eq (f : Int) (vs : List Row) :
    filterByFlatRange f vs =
      (vs.filter (fun v => v.Flat_start ≤ f && f ≤ v.Flat_end)).map
        (fun v => v.Key) := by
  have aux : ∀ (l : List Row) (acc : List Int),
      l.foldl (fun result v =>
        if v.Flat_start ≤ f && f ≤ v.Flat_end then result ++ [v.Key]
        else result) acc =
      acc ++ (l.filter (fun v => v.Flat_start ≤ f && f ≤ v.Flat_end)).map
        (fun v => v.Key) := by
    intro l
    induction l with
    | nil => intro acc; simp
    | cons v l ih =>
      intro acc
      rw [List.foldl_cons, ih, List.filter_cons]
      by_cases hc : (v.Flat_start ≤ f && f ≤ v.Flat_end) = true
      · rw [if_pos hc, if_pos hc]
        simp
      · rw [if_neg hc, if_neg hc]
  unfold filterByFlatRange
  rw [aux]
  simp

/-- Helper: the DB candidates are rows of the dataframe. -/
theorem dbCandidates_subset {df : List Row} {st : Street} {house : String}
    {r : Row} (h : r ∈ dbCandidates df st house) : r ∈ df := by
  unfold dbCandidates at h
  rcases ht : st.type with _ | t <;> rw [ht] at h <;> simp at h <;>
    first
    | exact h
    | exact h.1

/-- Helper: with a flat present, the check required and a surviving
candidate, `__match_with_db` is the flat-range filter. -/
theorem matchWithDb_flat (df : List Row) (st : Street) (house : String)
    (f : Int) (hne : dbCandidates df st house ≠ []) :
    matchWithDb df st house (some f) true =
      filterByFlatRange f (dbCandidates df st house) := by
  have : 0 < (dbCandidates df st house).length :=
    List.length_pos.2 hne
  simp [matchWithDb, this]

/-- C3: flat-range filtering is inclusive at both ends — for a query
matching a row's name/house/type filters, with `require_flat_check`
true the row's key is in the result exactly when
`Flat_start ≤ flat ≤ Flat_end`; and the flat filter runs only when a
flat is present, the check is required and a candidate survived
(otherwise the result is the surviving candidates' keys untouched).
The dataset is assumed to use its keys as identifiers (no two distinct
rows share the row's key). -/
theorem flat_range_inclusive (df : List Row) (st : Street) (house : String)
    (f : Int) (row : Row)
    (h1 : row ∈ dbCandidates df st house)
    (h2 : ∀ r ∈ df, r.Key = row.Key → r = row) :
    (row.Key ∈ matchWithDb df st house (some f) true ↔
      row.Flat_start ≤ f ∧ f ≤ row.Flat_end) ∧
    (∀ (flat : Option Int) (rfc : Bool),
      flat = none ∨ rfc = false ∨ dbCandidates df st house = [] →
      matchWithDb df st house flat rfc =
        (dbCandidates df st house).map (fun r => r.Key)) := by
  constructor
  · rw [matchWithDb_flat df st house f (List.ne_nil_of_mem h1),
      filterByFlatRange_eq]
    constructor
    · intro hk
      rcases List.mem_map.1 hk with ⟨r, hr, hkey⟩
      rcases List.mem_filter.1 hr with ⟨hrmem, hcond⟩
      have := h2 r (dbCandidates_subset hrmem) hkey
      subst this
      simpa using hcond
    · rintro ⟨ha, hb⟩
      exact List.mem_map.2 ⟨row,
        List.mem_filter.2 ⟨h1, by simp [ha, hb]⟩, rfl⟩
  · intro flat rfc hdisj
    rcases flat with _ | f2
    · rfl
    · rcases hdisj with h | h | h
      · exact absurd h (by simp)
      · subst h; simp [matchWithDb]
      · simp [matchWithDb, h]

/-- C4 counterexample: when the best spelling key maps to two canonical
streets that both carry the query's type, `StreetsFinder.find` does not
return that two-element subset — it returns only the first of them. -/
theorem find_type_subset_cx :
    Bank.find cmExact bankPair ⟨"К", some .street⟩ =
      some [⟨"А", some .street⟩] ∧
    Bank.find cmExact bankPair ⟨"К", some .street⟩ ≠
      some (((List.lookup "К" bankPair).getD []).filter
        (fun v => v.type == some .street)) := by
  constructor
  · rfl
  · decide

/-- C4 (amended): for a typed query whose best spelling key maps to a
list of canonical streets of length other than one, `find` returns the
singleton of the *first* street whose type equals the query's type, and
Python `None` (not an empty list) when no street matches. -/
theorem find_first_type_match (cm : CloseMatches) (bank : Bank)
    (q : Street) (t : StreetType) (m1 : String) (ms : List String)
    (hq : q.type = some t)
    (hcm : cm (ruUpper (pyStrip q.name)) (bank.map (fun p => p.1)) = m1 :: ms)
    (hlen : ((List.lookup m1 bank).getD []).length ≠ 1) :
    Bank.find cm bank q =
      match ((List.lookup m1 bank).getD []).find?
        (fun v => v.type == some t) with
      | some v => some [v]
      | none => none := by
  have hb : (((List.lookup m1 bank).getD []).length == 1) = false := by
    simpa using hlen
  simp [Bank.find, hcm, hb, hq]

/-- C4 witness: the amended theorem at a concrete bank where the best
key holds two streets of the query's type. -/
theorem find_first_type_match_witness :
    Bank.find cmExact bankPair ⟨"К", some .street⟩ =
      some [⟨"А", some .street⟩] :=
  (find_first_type_match cmExact bankPair ⟨"К", some .street⟩ .street
    "К" [] rfl (by decide) (by decide)).trans (by decide)

/-- Helper: on an address with street and house present, `link` never
raises an assertion failure — its errors are the `LinkerException`
conditions. -/
theorem link_no_assert (cm : CloseMatches) (L : Linker) (a : Address)
    (st : Street) (hs : String) (rfc : Bool)
    (h1 : a.street = some st) (h2 : a.house = some hs) :
    Linker.link cm L (some a) rfc ≠ .error .assertionFailed := by
  obtain ⟨os, oh, fl⟩ := a
  cases h1
  cases h2
  simp only [Linker.link]
  rcases Bank.find cm L.finder st with _ | ⟨_ | ⟨v, _ | ⟨v2, vs⟩⟩⟩ <;>
    simp <;> split <;> simp

/-- C5 counterexample: `getkey` does raise — on an absent address the
assertion failure of `link` is not a `LinkerException`, so it
propagates out of `getkey` instead of yielding the default value. -/
theorem getkey_assert_cx :
    Linker.getkey cmExact ⟨dfTwoTypes, []⟩ none 0 true =
      .error .assertionFailed := by
  rfl

/-- C5 (amended): for an address satisfying `link`'s precondition
(street and house present), `getkey` never raises: it returns `link`'s
key, or the default value when `link` raises a typed
`LinkerException`.  When the address, its street or its house is
absent, the assertion failure propagates through `getkey`. -/
theorem getkey_default_on_linker_exception (cm : CloseMatches)
    (L : Linker) (oa : Option Address) (d : Int) (rfc : Bool) :
    (∀ a st hs, oa = some a → a.street = some st → a.house = some hs →
      Linker.getkey cm L oa d rfc =
        .ok (match Linker.link cm L oa rfc with
             | .ok k => k
             | .error _ => d)) ∧
    ((oa = none ∨ ∃ a, oa = some a ∧ (a.street = none ∨ a.house = none)) →
      Linker.getkey cm L oa d rfc = .error .assertionFailed) := by
  constructor
  · intro a st hs ha h1 h2
    subst ha
    rcases hr : Linker.link cm L (some a) rfc with e | k
    · have hne := link_no_assert cm L a st hs rfc h1 h2
      rw [hr] at hne
      have he : e.isLinkerException = true := by
        cases e <;> simp_all [LinkError.isLinkerException]
      unfold Linker.getkey
      rw [hr]
      simp [he]
    · unfold Linker.getkey
      rw [hr]
  · rintro (ha | ⟨a, ha, hbad⟩)
    · subst ha; rfl
    · subst ha
      obtain ⟨os, oh, fl⟩ := a
      rcases hbad with hb | hb <;> cases hb <;>
        [skip; rcases os with _ | st] <;>
        simp [Linker.getkey, Linker.link, LinkError.isLinkerException]

/-- C5 witness: the amended theorem at a concrete valid address (the
linker has no matching row, so `link` raises `NotInDBException` and
`getkey` returns the default `99`). -/
theorem getkey_default_witness :
    Linker.getkey cmExact ⟨dfTwoTypes, []⟩
      (some ⟨some ⟨"А", none⟩, some "1", none⟩) 99 true = .ok 99 :=
  ((getkey_default_on_linker_exception cmExact ⟨dfTwoTypes, []⟩
      (some ⟨some ⟨"А", none⟩, some "1", none⟩) 99 true).1
    ⟨some ⟨"А", none⟩, some "1", none⟩ ⟨"А", none⟩ "1" rfl rfl rfl).trans
    (by rfl)

/-- C2 witness: the multi-candidate policy at a concrete linker — a
type-less query matching two canonical streets, of which exactly one
yields a unique DB match, resolves to that match's key. -/
theorem link_multi_candidate_policy_witness :
    Linker.link cmExact ⟨dfTwoTypes, bankTwo⟩
      (some ⟨some ⟨"МЕТАЛЛУРГОВ", none⟩, some "2", none⟩) true = .ok 101 :=
  (link_multi_candidate_policy cmExact ⟨dfTwoTypes, bankTwo⟩
      ⟨"МЕТАЛЛУРГОВ", none⟩ "2" none true
      [⟨"МЕТАЛЛУРГОВ", some .street⟩, ⟨"МЕТАЛЛУРГОВ", some .ploshad⟩]
      (by rfl) (by decide)).trans (by rfl)

/-- C3 witness: the flat-range containment at a concrete row with range
`[1, 5]` — the lower endpoint `flat = 1` is matched. -/
theorem flat_range_inclusive_witness :
    (7 : Int) ∈ matchWithDb dfOne ⟨"ПОБЕДЫ", some .street⟩ "10"
      (some 1) true :=
  ((flat_range_inclusive dfOne ⟨"ПОБЕДЫ", some .street⟩ "10" 1
      ⟨"УЛ.", "ПОБЕДЫ", "10", 1, 5, 7⟩ (by decide) (by decide)).1).2
    ⟨by norm_num, by norm_num⟩

/-- Helper: one iteration of the multi-candidate loop allocates a fresh
record at the end of the store and mutates only that record, so every
pre-existing position is untouched. -/
theorem linkStep_preserves (df : List Row) (i : Nat) (rfc : Bool)
    (σ0 : List Address) (j : Nat) (hj : j < σ0.length)
    (p : List Int × List Address) (v : Street)
    (hlen : σ0.length ≤ p.2.length) (hget : p.2[j]? = σ0[j]?) :
    σ0.length ≤ (linkStep df i rfc p v).2.length ∧
    (linkStep df i rfc p v).2[j]? = σ0[j]? := by
  obtain ⟨acc, σ⟩ := p
  dsimp only at hlen hget
  have hjσ : j < σ.length := lt_of_lt_of_le hj hlen
  have hne : σ.length ≠ j := by omega
  dsimp only [linkStep]
  constructor
  · simp only [List.length_set, List.length_append, List.length_cons,
      List.length_nil]
    omega
  · rw [List.getElem?_set_ne hne, List.getElem?_append_left hjσ, hget]

/-- Helper: the whole multi-candidate loop preserves every position of
the original store. -/
theorem linkFold_preserves (df : List Row) (i : Nat) (rfc : Bool)
    (σ0 : List Address) (j : Nat) (hj : j < σ0.length) :
    ∀ (vs : List Street) (p : List Int × List Address),
      σ0.length ≤ p.2.length → p.2[j]? = σ0[j]? →
      σ0.length ≤ (vs.foldl (linkStep df i rfc) p).2.length ∧
      (vs.foldl (linkStep df i rfc) p).2[j]? = σ0[j]? := by
  intro vs
  induction vs with
  | nil => intro p h1 h2; exact ⟨h1, h2⟩
  | cons v vs ih =>
    intro p h1 h2
    have hstep := linkStep_preserves df i rfc σ0 j hj p v h1 h2
    exact ih _ hstep.1 hstep.2

/-- C6: `Linker.link` never mutates its argument — over the explicit
object store, whatever outcome the store-level `link` produces, the
caller's address record (street name and type, house string, flat) at
position `i` is unchanged, because variant streets are only ever
assigned to the freshly allocated copies. -/
theorem link_preserves_argument (cm : CloseMatches) (L : Linker)
    (σ : List Address) (i : Nat) (rfc : Bool) (h : i < σ.length) :
    ((Linker.linkSt cm L σ i rfc).2)[i]? = σ[i]? := by
  have hne : σ.length ≠ i := Nat.ne_of_gt h
  simp only [Linker.linkSt]
  rcases hst : (σ.getD i Address.nil).street with _ | st <;>
    rcases hho : (σ.getD i Address.nil).house with _ | ho <;>
      dsimp only <;> try rfl
  rcases hf : Bank.find cm L.finder st with _ | ⟨_ | ⟨v, _ | ⟨v2, vs⟩⟩⟩ <;>
    dsimp only <;> try rfl
  · rw [List.getElem?_set_ne hne, List.getElem?_append_left h]
  · exact (linkFold_preserves L.df i rfc σ i h (v :: v2 :: vs) ([], σ)
      le_rfl rfl).2

/-- C6 witness: the preservation theorem at a concrete store holding
one address. -/
theorem link_preserves_argument_witness :
    ((Linker.linkSt cmExact ⟨dfTwoTypes, bankTwo⟩
        [⟨some ⟨"МЕТАЛЛУРГОВ", none⟩, some "2", none⟩] 0 true).2)[0]? =
      [(⟨some ⟨"МЕТАЛЛУРГОВ", none⟩, some "2", none⟩ : Address)][0]? :=
  link_preserves_argument cmExact ⟨dfTwoTypes, bankTwo⟩
    [⟨some ⟨"МЕТАЛЛУРГОВ", none⟩, some "2", none⟩] 0 true
    (by decide)

/-- Helper: a fold preserves any invariant its step preserves. -/
theorem foldl_preserve {α β : Type} (Pr : α → Prop) (f : α → β → α)
    (hf : ∀ b x, Pr b → Pr (f b x)) :
    ∀ (l : List β) (b : α), Pr b → Pr (l.foldl f b) := by
  intro l
  induction l with
  | nil => intro b hb; exact hb
  | cons x l ih => intro b hb; exact ih _ (hf b x hb)

/-- Helper: `_add` keeps every value list non-empty and duplicate-free. -/
theorem add_preserves (bank : Bank) (k : String) (val : Street)
    (hb : ∀ p ∈ bank, p.2 ≠ [] ∧ p.2.Nodup) :
    ∀ p ∈ Bank.add bank k val, p.2 ≠ [] ∧ p.2.Nodup := by
  intro p hp
  unfold Bank.add at hp
  split at hp
  · rcases List.mem_map.1 hp with ⟨q, hq, hpq⟩
    by_cases hqk : (q.1 == k) = true
    · rw [if_pos hqk] at hpq
      by_cases hc : (q.2.contains val) = true
      · rw [if_pos hc] at hpq
        subst hpq
        exact hb q hq
      · rw [if_neg hc] at hpq
        subst hpq
        refine ⟨by simp, ?_⟩
        have hnm : val ∉ q.2 := by
          simpa using hc
        simp [List.nodup_append, (hb q hq).2, hnm]
    · rw [if_neg hqk] at hpq
      subst hpq
      exact hb q hq
  · rcases List.mem_append.1 hp with hq | hq
    · exact hb p hq
    · simp only [List.mem_singleton] at hq
      subst hq
      exact ⟨by simp, by simp⟩

/-- Helper: `StreetsFinder.append` keeps every value list non-empty and
duplicate-free. -/
theorem append_preserves (abbrs : AbbrTable) (street : Street)
    (bank : Bank) (hb : ∀ p ∈ bank, p.2 ≠ [] ∧ p.2.Nodup) :
    ∀ p ∈ Bank.append abbrs bank street, p.2 ≠ [] ∧ p.2.Nodup := by
  unfold Bank.append
  dsimp only
  refine foldl_preserve (fun (b : Bank) => ∀ p ∈ b, p.2 ≠ [] ∧ p.2.Nodup)
    _ ?_ _ _ (add_preserves bank street.name street hb)
  intro b word hwf
  cases hlk : List.lookup word abbrs with
  | none => simpa [hlk] using hwf
  | some variants =>
    simp only [hlk]
    exact foldl_preserve (fun (b2 : Bank) => ∀ p ∈ b2, p.2 ≠ [] ∧ p.2.Nodup)
      _ (fun b2 variant hwf2 => add_preserves b2 _ street hwf2) _ _ hwf

/-- Helper: membership in the rebuilt dict of `StreetsFinder.remove` —
every surviving pair is either an untouched pair not containing the
street, or a pair with the street erased from a list of length at
least two. -/
theorem remove_mem (bank : Bank) (s : Street) (q : String × List Street)
    (hq : q ∈ Bank.remove bank s) :
    (q ∈ bank ∧ (q.2.contains s) = false) ∨
    (∃ p ∈ bank, (p.2.contains s) = true ∧ p.2.length ≠ 1 ∧
      q = (p.1, p.2.erase s)) := by
  have aux : ∀ (l : Bank) (acc : Bank),
      q ∈ l.foldl (fun tmp p =>
        if ¬ p.2.contains s then tmp ++ [p]
        else if p.2.length ≠ 1 then tmp ++ [(p.1, p.2.erase s)]
        else tmp) acc →
      q ∈ acc ∨ (q ∈ l ∧ (q.2.contains s) = false) ∨
      (∃ p ∈ l, (p.2.contains s) = true ∧ p.2.length ≠ 1 ∧
        q = (p.1, p.2.erase s)) := by
    intro l
    induction l with
    | nil => intro acc h; exact Or.inl h
    | cons p l ih =>
      intro acc h
      rw [List.foldl_cons] at h
      rcases ih _ h with hacc | hrest | hex
      · by_cases hc : ((p.2.contains s) = true)
        · rw [if_neg (not_not_intro hc)] at hacc
          by_cases hl : p.2.length ≠ 1
          · rw [if_pos hl] at hacc
            rcases List.mem_append.1 hacc with h1 | h1
            · exact Or.inl h1
            · simp only [List.mem_singleton] at h1
              exact Or.inr (Or.inr ⟨p, List.mem_cons_self p l, hc, hl, h1⟩)
          · rw [if_neg hl] at hacc
            exact Or.inl hacc
        · rw [if_pos hc] at hacc
          rcases List.mem_append.1 hacc with h1 | h1
          · exact Or.inl h1
          · simp only [List.mem_singleton] at h1
            subst h1
            exact Or.inr (Or.inl ⟨List.mem_cons_self q l,
              by simpa using hc⟩)
      · exact Or.inr (Or.inl ⟨List.mem_cons_of_mem p hrest.1, hrest.2⟩)
      · rcases hex with ⟨r, hr, h1, h2, h3⟩
        exact Or.inr (Or.inr ⟨r, List.mem_cons_of_mem p hr, h1, h2, h3⟩)
  rcases aux bank [] hq with h | h | h
  · cases h
  · exact Or.inl h
  · exact Or.inr h

/-- Helper: `StreetsFinder.remove` keeps every value list non-empty and
duplicate-free. -/
theorem remove_preserves (s : Street) (bank : Bank)
    (hb : ∀ p ∈ bank, p.2 ≠ [] ∧ p.2.Nodup) :
    ∀ p ∈ Bank.remove bank s, p.2 ≠ [] ∧ p.2.Nodup := by
  intro q hq
  rcases remove_mem bank s q hq with ⟨hmem, _⟩ | ⟨p, hp, hc, hl, hpq⟩
  · exact hb q hmem
  · subst hpq
    have hwf := hb p hp
    have hmem : s ∈ p.2 := by simpa using hc
    have hlen : (p.2.erase s).length = p.2.length - 1 :=
      List.length_erase_of_mem hmem
    have hge : 2 ≤ p.2.length := by
      have : 1 ≤ p.2.length := List.length_pos.2 (by
        intro hnil; rw [hnil] at hmem; cases hmem)
      omega
    constructor
    · intro hnil
      dsimp only at hnil
      rw [hnil] at hlen
      simp at hlen
      omega
    · exact hwf.2.erase s

/-- C9: starting from the empty bank, after any sequence of `append`
and `remove` operations every spelling present in the bank maps to a
non-empty list; and a further `remove street` deletes the street from
every surviving spelling's list while keeping every list non-empty
(spellings whose list was exactly that street are dropped). -/
theorem bank_lists_nonempty (abbrs : AbbrTable) (ops : List BankOp)
    (s : Street) :
    (∀ p ∈ runOps abbrs ops, p.2 ≠ []) ∧
    (∀ p ∈ Bank.remove (runOps abbrs ops) s,
      (p.2.contains s) = false ∧ p.2 ≠ []) := by
  have hWF : ∀ p ∈ runOps abbrs ops, p.2 ≠ [] ∧ p.2.Nodup := by
    unfold runOps
    refine foldl_preserve (fun (b : Bank) => ∀ p ∈ b, p.2 ≠ [] ∧ p.2.Nodup)
      _ ?_ _ _ (fun p hp => absurd hp (List.not_mem_nil p))
    intro b op hb
    cases op with
    | app st => exact append_preserves abbrs st b hb
    | rem st => exact remove_preserves st b hb
  constructor
  · intro p hp
    exact (hWF p hp).1
  · intro q hq
    have hq2 := remove_preserves s (runOps abbrs ops) hWF q hq
    rcases remove_mem (runOps abbrs ops) s q hq with ⟨_, hc⟩ |
      ⟨p, hp, hc, hl, hpq⟩
    · exact ⟨hc, hq2.1⟩
    · subst hpq
      refine ⟨?_, hq2.1⟩
      have hnd := (hWF p hp).2
      have : s ∉ p.2.erase s := hnd.not_mem_erase
      simpa using this

/-- Helper: the type grammar's interpretation constant is always one of
the nine canonical short forms. -/
theorem typeConstRule_mem (t : Token) (v : String)
    (hv : typeConstRule t = some v) :
    v ∈ ["УЛ.", "Ш.", "Б-Р", "ЛН.", "ПЕР.", "ПР-КТ", "ПР-Д", "ПЛ.",
      "ТЕР."] := by
  unfold typeConstRule at hv
  split_ifs at hv <;> simp_all

/-- C7: for every input string `StreetType.fromStr` either returns one
`StreetType` variant or fails with the "type not recognized" failure;
the distinct "unknown street type" branch is unreachable, because the
grammar only produces the nine canonical short forms and each is
mapped. -/
theorem fromStr_type_total (m : Morph) (s : String) :
    (∃ t, StreetType.fromStr m s = .ok t) ∨
    StreetType.fromStr m s = .error .typeUnrecognized := by
  cases htok : tokenize m s with
  | nil => exact Or.inr (by simp [StreetType.fromStr, htok])
  | cons t ts =>
    rcases hv : typeConstRule t with _ | v
    · exact Or.inr (by simp [StreetType.fromStr, htok, hv])
    · left
      have hmem := typeConstRule_mem t v hv
      fin_cases hmem
      · exact ⟨.street, by simp [StreetType.fromStr, htok, hv]⟩
      · exact ⟨.shosse, by simp [StreetType.fromStr, htok, hv]⟩
      · exact ⟨.bulvar, by simp [StreetType.fromStr, htok, hv]⟩
      · exact ⟨.liniya, by simp [StreetType.fromStr, htok, hv]⟩
      · exact ⟨.pereulok, by simp [StreetType.fromStr, htok, hv]⟩
      · exact ⟨.prospect, by simp [StreetType.fromStr, htok, hv]⟩
      · exact ⟨.proezd, by simp [StreetType.fromStr, htok, hv]⟩
      · exact ⟨.ploshad, by simp [StreetType.fromStr, htok, hv]⟩
      · exact ⟨.territoria, by simp [StreetType.fromStr, htok, hv]⟩

/-- Helper: the address grammar has no match on the empty token
stream (the street section is mandatory). -/
theorem pADDRESS_nil : pADDRESS [] = none := by rfl

/-- C8 counterexample: on a whitespace-only input `Address.fromStr`
fails its leading `assert` (an `AssertionError`), not the "unparseable
address" condition the claim names. -/
theorem fromStr_empty_cx :
    Address.fromStr mNeutral "   " = .error .assertionFailed ∧
    Address.fromStr mNeutral "   " ≠ .error .unparseable := by
  constructor
  · rfl
  · intro h
    exact absurd (Eq.trans (by rfl : (Except.error ParseErr.assertionFailed :
      Except ParseErr Address) = Address.fromStr mNeutral "   ") h)
      (by simp)

/-- C8 (amended): an empty or whitespace-only input fails the `assert`
of `Address.fromStr` (an `AssertionError`, distinct from the
"unparseable" condition); an input that strips to something non-empty
but tokenizes to the empty stream — e.g. punctuation only — fails to
match the grammar and raises the "unparseable address" condition, so no
partially filled `Address` is ever returned on such inputs. -/
theorem fromStr_empty_and_punct (m : Morph) (s : String) :
    (pyStrip s = "" → Address.fromStr m s = .error .assertionFailed) ∧
    (pyStrip s ≠ "" → tokenize m s = [] →
      Address.fromStr m s = .error .unparseable) := by
  constructor
  · intro h
    simp [Address.fromStr, h]
  · intro h1 h2
    have hb : (pyStrip s == "") = false := by
      simpa using h1
    simp [Address.fromStr, hb, h2, pADDRESS_nil]

/-- C8 witness: the amended theorem at the fully-punctuation input
`"..."`. -/
theorem fromStr_empty_and_punct_witness :
    Address.fromStr mNeutral "..." = .error .unparseable :=
  (fromStr_empty_and_punct mNeutral "...").2 (by decide) (by rfl)

/-- Helper: the nine canonical short forms are already upper case. -/
theorem shortName_upper (t : StreetType) :
    ruUpper t.shortName = t.shortName := by
  cases t <;> rfl

/-- C1 counterexample: on a dataset where two rows share Name, Type and
House (two flat ranges of one house), the address built from the first
row's Name/Type/House linked with `require_flat_check = false` raises
`UnresolvedAmbigiuty` — it does not return one of the sharing rows'
keys, contrary to the claim. -/
theorem link_roundtrip_cx :
    (Linker.load mNeutral [] dfShared).toOption.map (fun L =>
      Linker.link cmExact L
        (some ⟨some ⟨"ПОБЕДЫ", some .street⟩, some "10", none⟩) false) =
      some (.error .unresolvedAmbiguity) := by
  rfl

/-- C1 (amended): for a reference row that is the *unique* row with its
name, house and type short form, whose Name/House are in the dataset's
upper-case convention, and whose name the bank resolves to the row's
own canonical street, `link` with `require_flat_check = false` on the
address built from the row returns that row's key.  When several rows
share name+type+house, `link` raises `UnresolvedAmbigiuty` instead of
returning one of their keys (see the counterexample). -/
theorem link_roundtrip_unique (cm : CloseMatches) (L : Linker) (row : Row)
    (t : StreetType)
    (hNameU : ruUpper row.Name = row.Name)
    (hHouseU : ruUpper row.House = row.House)
    (hfind : Bank.find cm L.finder ⟨row.Name, some t⟩ =
      some [⟨row.Name, some t⟩])
    (huniq : L.df.filter (fun r =>
      r.Name == row.Name && r.House == row.House &&
      r.Typ == t.shortName) = [row]) :
    Linker.link cm L
      (some ⟨some ⟨row.Name, some t⟩, some row.House, none⟩) false =
      .ok row.Key := by
  have hcand : dbCandidates L.df ⟨row.Name, some t⟩ row.House = [row] := by
    unfold dbCandidates
    dsimp only
    rw [List.filter_filter, ← huniq]
    refine List.filter_congr ?_
    intro r hr
    rw [hNameU, hHouseU, shortName_upper t]
    cases h1 : r.Name == row.Name <;> cases h2 : r.House == row.House <;>
      cases h3 : r.Typ == t.shortName <;> rfl
  have hm : matchWithDb L.df ⟨row.Name, some t⟩ row.House none false =
      [row.Key] := by
    unfold matchWithDb
    rw [hcand]
    rfl
  simp only [Linker.link, hfind, hm]

/-- C1 witness: the amended theorem at a one-row dataset and its loaded
bank. -/
theorem link_roundtrip_unique_witness :
    Linker.link cmExact ⟨dfOne, bankOne⟩
      (some ⟨some ⟨"ПОБЕДЫ", some .street⟩, some "10", none⟩) false =
      .ok 7 := by
  have h := link_roundtrip_unique cmExact ⟨dfOne, bankOne⟩
    ⟨"УЛ.", "ПОБЕДЫ", "10", 1, 5, 7⟩ .street (by rfl) (by rfl) (by rfl)
    (by rfl)
  exact h

/-- Helper: a digit character's code point lies in `[48, 57]`. -/
theorem digit_toNat (c : Char) (h : c.isDigit = true) :
    48 ≤ c.toNat ∧ c.toNat ≤ 57 := by
  simp [Char.isDigit, Char.le_def] at h
  exact h

/-- Helper: every token the tokenizer emits is well formed: an INT
token's text is a non-empty digit run. -/
theorem tokenizeAux_wf (m : Morph) :
    ∀ (fuel pos : Nat) (cs : List Char), StreamWF (tokenizeAux m fuel pos cs) := by
  intro fuel
  induction fuel with
  | zero =>
    intro pos cs t ht
    simp [tokenizeAux] at ht
  | succ fuel ih =>
    intro pos cs
    cases cs with
    | nil => intro t ht; simp [tokenizeAux] at ht
    | cons c cs2 =>
      intro t ht hk
      simp only [tokenizeAux] at ht
      split at ht
      case isTrue hd =>
        split at ht
        case h_1 r2 heq =>
          split at ht
          case isTrue hcond =>
            rcases List.mem_cons.1 ht with rfl | hrec
            · simp at hk
            · exact ih _ _ t hrec hk
          case isFalse hcond =>
            rcases List.mem_cons.1 ht with rfl | hrec
            · refine ⟨by simp [List.takeWhile_cons, hd], ?_⟩
              intro ch hch
              exact digit_toNat ch (List.mem_takeWhile_imp hch)
            · exact ih _ _ t hrec hk
        case h_2 heq =>
          rcases List.mem_cons.1 ht with rfl | hrec
          · refine ⟨by simp [List.takeWhile_cons, hd], ?_⟩
            intro ch hch
            exact digit_toNat ch (List.mem_takeWhile_imp hch)
          · exact ih _ _ t hrec hk
      case isFalse hd =>
        split at ht
        case isTrue hr =>
          split at ht
          case h_1 r2 heq =>
            split at ht
            case isTrue hcond =>
              rcases List.mem_cons.1 ht with rfl | hrec
              · simp at hk
              · exact ih _ _ t hrec hk
            case isFalse hcond =>
              rcases List.mem_cons.1 ht with rfl | hrec
              · simp at hk
              · exact ih _ _ t hrec hk
          case h_2 heq =>
            rcases List.mem_cons.1 ht with rfl | hrec
            · simp at hk
            · exact ih _ _ t hrec hk
        case isFalse hr =>
          split at ht
          case isTrue hp =>
            rcases List.mem_cons.1 ht with rfl | hrec
            · simp at hk
            · exact ih _ _ t hrec hk
          case isFalse hp =>
            exact ih _ _ t ht hk

/-- Helper: `tokenize` only produces well-formed tokens. -/
theorem tokenize_wf (m : Morph) (s : String) : StreamWF (tokenize m s) :=
  tokenizeAux_wf m s.data.length 0 s.data

/-- Helper: `pickLonger` only ever returns one of its two inputs. -/
theorem pickLonger_mem {α : Type} {a b : Option (α × List Token)}
    {x : α × List Token} (h : pickLonger a b = some x) :
    a = some x ∨ b = some x := by
  rcases a with _ | a1 <;> rcases b with _ | b1 <;>
    simp only [pickLonger] at h
  · cases h
  · exact Or.inr h
  · exact Or.inl h
  · split at h
    · exact Or.inr h
    · exact Or.inl h

/-- Helper: a match of `pAlt` comes from one of the alternatives. -/
theorem pAlt_mem {α : Type} {p q : P α} {ts : List Token}
    {x : α × List Token} (h : pAlt p q ts = some x) :
    p ts = some x ∨ q ts = some x := by
  unfold pAlt at h
  exact pickLonger_mem h

/-- Helper: a match of `pAlts` comes from one of the listed
alternatives. -/
theorem pAlts_mem {α : Type} {ps : List (P α)} {ts : List Token}
    {x : α × List Token} (h : pAlts ps ts = some x) :
    ∃ p ∈ ps, p ts = some x := by
  have aux : ∀ (l : List (P α)) (acc : Option (α × List Token)),
      l.foldl (fun acc p => pickLonger acc (p ts)) acc = some x →
      acc = some x ∨ ∃ p ∈ l, p ts = some x := by
    intro l
    induction l with
    | nil => intro acc h; exact Or.inl h
    | cons p l ih =>
      intro acc h
      rcases ih _ h with hacc | hex
      · rcases pickLonger_mem hacc with h1 | h1
        · exact Or.inl h1
        · exact Or.inr ⟨p, List.mem_cons_self p l, h1⟩
      · rcases hex with ⟨q, hq, h1⟩
        exact Or.inr ⟨q, List.mem_cons_of_mem p hq, h1⟩
  rcases aux ps none h with h1 | h1
  · cases h1
  · exact h1

/-- Helper: a `pTok` match takes the head of the stream. -/
theorem pTok_eq {pr : Token → Bool} {ts : List Token} {t : Token}
    {rest : List Token} (h : pTok pr ts = some (t, rest)) :
    ts = t :: rest ∧ pr t = true := by
  unfold pTok at h
  cases ts with
  | nil => cases h
  | cons u us =>
    dsimp only at h
    by_cases hc : pr u = true
    · rw [if_pos hc] at h
      cases h
      exact ⟨rfl, hc⟩
    · rw [if_neg hc] at h
      cases h

/-- Helper: a `pTok1` match takes the head of the stream as its span. -/
theorem pTok1_eq {pr : Token → Bool} {ts : List Token}
    {sp rest : List Token} (h : pTok1 pr ts = some (sp, rest)) :
    ∃ t, sp = [t] ∧ ts = t :: rest ∧ pr t = true := by
  unfold pTok1 at h
  cases ts with
  | nil => cases h
  | cons u us =>
    dsimp only at h
    by_cases hc : pr u = true
    · rw [if_pos hc] at h
      cases h
      exact ⟨u, rfl, rfl, hc⟩
    · rw [if_neg hc] at h
      cases h

/-- Helper: `pTok` hands back a suffix. -/
theorem sufP_pTok (pr : Token → Bool) : SufP (pTok pr) := by
  intro ts a rest h
  obtain ⟨rfl, -⟩ := pTok_eq h
  exact List.suffix_cons a rest

/-- Helper: `pTok1` hands back a suffix. -/
theorem sufP_pTok1 (pr : Token → Bool) : SufP (pTok1 pr) := by
  intro ts a rest h
  obtain ⟨t, -, rfl, -⟩ := pTok1_eq h
  exact List.suffix_cons t rest

/-- Helper: `pAlt` preserves the suffix property. -/
theorem sufP_pAlt {α : Type} {p q : P α} (hp : SufP p) (hq : SufP q) :
    SufP (pAlt p q) := by
  intro ts a rest h
  rcases pAlt_mem h with h1 | h1
  · exact hp _ _ _ h1
  · exact hq _ _ _ h1

/-- Helper: `pAlts` preserves the suffix property. -/
theorem sufP_pAlts {α : Type} {ps : List (P α)}
    (h : ∀ p ∈ ps, SufP p) : SufP (pAlts ps) := by
  intro ts a rest hh
  rcases pAlts_mem hh with ⟨p, hp, h1⟩
  exact h p hp _ _ _ h1

/-- Helper: `pSeqSpan` preserves the suffix property. -/
theorem sufP_pSeqSpan {p q : P (List Token)} (hp : SufP p)
    (hq : SufP q) : SufP (pSeqSpan p q) := by
  intro ts a rest h
  unfold pSeqSpan at h
  rcases h1 : p ts with _ | ⟨s1, r1⟩ <;> rw [h1] at h
  · cases h
  · dsimp only at h
    rcases h2 : q r1 with _ | ⟨s2, r2⟩ <;> rw [h2] at h
    · cases h
    · cases h
      exact (hq _ _ _ h2).trans (hp _ _ _ h1)

/-- Helper: `pSeqU` preserves the suffix property. -/
theorem sufP_pSeqU {p q : P Unit} (hp : SufP p) (hq : SufP q) :
    SufP (pSeqU p q) := by
  intro ts a rest h
  unfold pSeqU at h
  rcases h1 : p ts with _ | ⟨x, r1⟩ <;> rw [h1] at h
  · cases h
  · dsimp only at h
    exact (hq _ _ _ h).trans (hp _ _ _ h1)

/-- Helper: mapping the matched value preserves the suffix property. -/
theorem sufP_map {α β : Type} {p : P α} (hp : SufP p) (f : α → β) :
    SufP (fun ts => (p ts).map (fun x => (f x.1, x.2))) := by
  intro ts a rest h
  dsimp only at h
  rcases h1 : p ts with _ | ⟨x, r⟩ <;> rw [h1] at h
  · cases h
  · simp only [Option.map_some'] at h
    cases h
    exact hp _ _ _ h1

/-- Helper: sequencing through a `match` and a `map` preserves the
suffix property. -/
theorem sufP_seqMap {α β γ : Type} {p : P α} {q : P β} (hp : SufP p)
    (hq : SufP q) (f : α → β → γ) :
    SufP (fun ts => match p ts with
      | some x => (q x.2).map (fun y => (f x.1 y.1, y.2))
      | none => none) := by
  intro ts a rest h
  dsimp only at h
  rcases h1 : p ts with _ | ⟨x, r1⟩ <;> rw [h1] at h
  · cases h
  · dsimp only at h
    rcases h2 : q r1 with _ | ⟨y, r2⟩ <;> rw [h2] at h
    · cases h
    · simp only [Option.map_some'] at h
      cases h
      exact (hq _ _ _ h2).trans (hp _ _ _ h1)

/-- Helper: lowercasing leaves digit characters unchanged. -/
theorem ruLowerChar_of_digit (c : Char) (h1 : 48 ≤ c.toNat)
    (h2 : c.toNat ≤ 57) : ruLowerChar c = c := by
  simp only [ruLowerChar]
  split_ifs with ha hb hc
  · exfalso; simp at ha; omega
  · exfalso; simp at hb; omega
  · exfalso; simp at hc; omega
  · rfl

/-- Helper: a token accepted by `HOUSE_LETTER` cannot be a well-formed
INT token (its text is a Cyrillic letter, not a digit run). -/
theorem houseLetter_not_int (t : Token) (hw : TokWF t)
    (hl : isHouseLetter t = true) : ¬ t.kind = .int := by
  intro hk
  obtain ⟨hne, hdig⟩ := hw hk
  unfold isHouseLetter at hl
  rcases htx : t.text with _ | ⟨c, cs⟩
  · exact hne htx
  · rw [htx] at hl
    cases cs with
    | nil =>
      dsimp only at hl
      have hc := hdig c (by simp [htx])
      rw [ruLowerChar_of_digit c hc.1 hc.2] at hl
      have : ∀ x ∈ ['а', 'б', 'в', 'г', 'д', 'е', 'ё', 'ж', 'з', 'и',
          'й'], 1024 ≤ x.toNat := by decide
      have hmem : c ∈ ['а', 'б', 'в', 'г', 'д', 'е', 'ё', 'ж', 'з', 'и',
          'й'] := by simpa using hl
      have := this c hmem
      omega
    | cons c2 cs2 => simp at hl

/-- Helper: the slash token cannot be a well-formed INT token. -/
theorem slash_not_int (t : Token) (hw : TokWF t)
    (hl : isSlash t = true) : ¬ t.kind = .int := by
  intro hk
  obtain ⟨hne, hdig⟩ := hw hk
  unfold isSlash at hl
  have htx : t.text = ['/'] := by simpa using hl
  have h47 := hdig '/' (by simp [htx])
  have : ('/').toNat = 47 := rfl
  omega

/-- Helper: a token accepted by `NON_NEGATIVE_INT` has value in
`[0, 1001]`. -/
theorem isNNI_bound (t : Token) (h : isNNI t = true) :
    0 ≤ t.ival ∧ t.ival ≤ 1001 := by
  simp [isNNI] at h
  exact ⟨h.1.2, h.2⟩

/-- Helper: a `DOM_NUMBER` match over a well-formed stream captures a
span whose INT tokens are bounded, and consumes a prefix. -/
theorem pDomNumber_spec (ts span rest : List Token)
    (hw : StreamWF ts) (h : pDomNumber ts = some (span, rest)) :
    SpanOk span ∧ rest.IsSuffix ts := by
  unfold pDomNumber pNNI at h
  rcases pickLonger_mem h with h1 | h1
  · rcases hn1 : pTok isNNI ts with _ | ⟨t1, r1⟩ <;> rw [hn1] at h1
    · cases h1
    · dsimp only at h1
      obtain ⟨hts, hb1⟩ := pTok_eq hn1
      subst hts
      rcases hl1 : pTok isHouseLetter r1 with _ | ⟨u1, ru1⟩ <;>
        rw [hl1] at h1 <;> dsimp only at h1
      · rcases hs : pTok isSlash r1 with _ | ⟨sl, r3⟩ <;> rw [hs] at h1 <;>
          dsimp only at h1
        · cases h1
        · obtain ⟨hr1, hsl⟩ := pTok_eq hs
          subst hr1
          rcases hn2 : pTok isNNI r3 with _ | ⟨t2, r4⟩ <;> rw [hn2] at h1 <;>
            dsimp only at h1
          · cases h1
          · obtain ⟨hr3, hb2⟩ := pTok_eq hn2
            subst hr3
            rcases hl2 : pTok isHouseLetter r4 with _ | ⟨u2, r5⟩ <;>
              rw [hl2] at h1 <;> dsimp only at h1
            · cases h1
              constructor
              · intro t htm hk
                simp only [List.cons_append, List.nil_append,
                  List.mem_cons, List.not_mem_nil, or_false] at htm
                rcases htm with rfl | rfl | rfl
                · exact isNNI_bound _ hb1
                · exact absurd hk (slash_not_int _ (hw _ (by simp)) hsl)
                · exact isNNI_bound _ hb2
              · exact ⟨[t1, sl, t2], rfl⟩
            · obtain ⟨hr4, hu2⟩ := pTok_eq hl2
              subst hr4
              cases h1
              constructor
              · intro t htm hk
                simp only [List.cons_append, List.nil_append,
                  List.mem_cons, List.not_mem_nil, or_false] at htm
                rcases htm with rfl | rfl | rfl | rfl
                · exact isNNI_bound _ hb1
                · exact absurd hk (slash_not_int _ (hw _ (by simp)) hsl)
                · exact isNNI_bound _ hb2
                · exact absurd hk
                    (houseLetter_not_int _ (hw _ (by simp)) hu2)
              · exact ⟨[t1, sl, t2, u2], rfl⟩
      · obtain ⟨hr1, hu1⟩ := pTok_eq hl1
        subst hr1
        rcases hs : pTok isSlash ru1 with _ | ⟨sl, r3⟩ <;> rw [hs] at h1 <;>
          dsimp only at h1
        · cases h1
        · obtain ⟨hru1, hsl⟩ := pTok_eq hs
          subst hru1
          rcases hn2 : pTok isNNI r3 with _ | ⟨t2, r4⟩ <;> rw [hn2] at h1 <;>
            dsimp only at h1
          · cases h1
          · obtain ⟨hr3, hb2⟩ := pTok_eq hn2
            subst hr3
            rcases hl2 : pTok isHouseLetter r4 with _ | ⟨u2, r5⟩ <;>
              rw [hl2] at h1 <;> dsimp only at h1
            · cases h1
              constructor
              · intro t htm hk
                simp only [List.cons_append, List.nil_append,
                  List.mem_cons, List.not_mem_nil, or_false] at htm
                rcases htm with rfl | rfl | rfl | rfl
                · exact isNNI_bound _ hb1
                · exact absurd hk
                    (houseLetter_not_int _ (hw _ (by simp)) hu1)
                · exact absurd hk (slash_not_int _ (hw _ (by simp)) hsl)
                · exact isNNI_bound _ hb2
              · exact ⟨[t1, u1, sl, t2], rfl⟩
            · obtain ⟨hr4, hu2⟩ := pTok_eq hl2
              subst hr4
              cases h1
              constructor
              · intro t htm hk
                simp only [List.cons_append, List.nil_append,
                  List.mem_cons, List.not_mem_nil, or_false] at htm
                rcases htm with rfl | rfl | rfl | rfl | rfl
                · exact isNNI_bound _ hb1
                · exact absurd hk
                    (houseLetter_not_int _ (hw _ (by simp)) hu1)
                · exact absurd hk (slash_not_int _ (hw _ (by simp)) hsl)
                · exact isNNI_bound _ hb2
                · exact absurd hk
                    (houseLetter_not_int _ (hw _ (by simp)) hu2)
              · exact ⟨[t1, u1, sl, t2, u2], rfl⟩
  · rcases hn1 : pTok isNNI ts with _ | ⟨t1, r1⟩ <;> rw [hn1] at h1
    · cases h1
    · dsimp only at h1
      obtain ⟨hts, hb1⟩ := pTok_eq hn1
      subst hts
      rcases hl1 : pTok isHouseLetter r1 with _ | ⟨u1, ru1⟩ <;>
        rw [hl1] at h1 <;> dsimp only at h1
      · cases h1
        constructor
        · intro t htm hk
          simp only [List.mem_cons, List.not_mem_nil, or_false] at htm
          rcases htm with rfl
          exact isNNI_bound _ hb1
        · exact ⟨[t1], rfl⟩
      · obtain ⟨hr1, hu1⟩ := pTok_eq hl1
        subst hr1
        cases h1
        constructor
        · intro t htm hk
          simp only [List.mem_cons, List.not_mem_nil, or_false] at htm
          rcases htm with rfl | rfl
          · exact isNNI_bound _ hb1
          · exact absurd hk (houseLetter_not_int _ (hw _ (by simp)) hu1)
        · exact ⟨[t1, u1], rfl⟩

/-- Helper: well-formedness restricts to suffixes. -/
theorem StreamWF_suffix {ts rest : List Token} (h : rest.IsSuffix ts)
    (hw : StreamWF ts) : StreamWF rest :=
  fun t ht => hw t (h.subset ht)

/-- Helper: a `DOM` match captures a bounded house span and consumes a
prefix. -/
theorem pDOM_spec (ts span rest : List Token) (hw : StreamWF ts)
    (h : pDOM ts = some (span, rest)) :
    SpanOk span ∧ rest.IsSuffix ts := by
  unfold pDOM at h
  rcases pAlt_mem h with h1 | h1
  · exact pDomNumber_spec ts span rest hw h1
  · rcases pAlt_mem h1 with h2 | h2
    · try dsimp only at h2
      rcases hd : pTok isDomWord ts with _ | ⟨w, r1⟩ <;> rw [hd] at h2
      · cases h2
      · obtain ⟨hts, -⟩ := pTok_eq hd
        subst hts
        try dsimp only at h2
        have hw1 : StreamWF r1 := fun t ht => hw t (by simp [ht])
        obtain ⟨hok, hsuf⟩ := pDomNumber_spec r1 span rest hw1 h2
        exact ⟨hok, hsuf.trans (List.suffix_cons w r1)⟩
    · try dsimp only at h2
      rcases hn : pDomNumber ts with _ | ⟨sp1, r1⟩ <;> rw [hn] at h2
      · cases h2
      · try dsimp only at h2
        rcases hd : pTok isDomWord r1 with _ | ⟨w, r2⟩ <;> rw [hd] at h2
        · cases h2
        · cases h2
          obtain ⟨hok, hsuf⟩ := pDomNumber_spec ts span r1 hw hn
          obtain ⟨hr1, -⟩ := pTok_eq hd
          subst hr1
          exact ⟨hok, (List.suffix_cons w rest).trans hsuf⟩

/-- Helper: a `KORPUS` match captures a bounded number and consumes a
prefix. -/
theorem pKORPUS_spec (ts : List Token) (t : Token) (rest : List Token)
    (h : pKORPUS ts = some (t, rest)) :
    (0 ≤ t.ival ∧ t.ival ≤ 1001) ∧ rest.IsSuffix ts := by
  unfold pKORPUS pNNI at h
  rcases hk : pTok isKorpusWord ts with _ | ⟨w, r1⟩ <;> rw [hk] at h
  · cases h
  · try dsimp only at h
    obtain ⟨hts, -⟩ := pTok_eq hk
    subst hts
    obtain ⟨hr1, hb⟩ := pTok_eq h
    subst hr1
    exact ⟨isNNI_bound _ hb, ⟨[w, t], rfl⟩⟩

/-- Helper: a `STROENIE` match captures a bounded number and consumes a
prefix. -/
theorem pSTROENIE_spec (ts : List Token) (t : Token) (rest : List Token)
    (h : pSTROENIE ts = some (t, rest)) :
    (0 ≤ t.ival ∧ t.ival ≤ 1001) ∧ rest.IsSuffix ts := by
  unfold pSTROENIE pNNI at h
  rcases hk : pTok isStroenieWord ts with _ | ⟨w, r1⟩ <;> rw [hk] at h
  · cases h
  · try dsimp only at h
    obtain ⟨hts, -⟩ := pTok_eq hk
    subst hts
    obtain ⟨hr1, hb⟩ := pTok_eq h
    subst hr1
    exact ⟨isNNI_bound _ hb, ⟨[w, t], rfl⟩⟩

/-- Helper: a `KVARTIRA` match captures a bounded flat number and
consumes a prefix. -/
theorem pKVARTIRA_spec (ts : List Token) (t : Token) (rest : List Token)
    (h : pKVARTIRA ts = some (t, rest)) :
    (0 ≤ t.ival ∧ t.ival ≤ 1001) ∧ rest.IsSuffix ts := by
  unfold pKVARTIRA pNNI at h
  rcases pAlt_mem h with h1 | h1
  · obtain ⟨hts, hb⟩ := pTok_eq h1
    subst hts
    exact ⟨isNNI_bound _ hb, ⟨[t], rfl⟩⟩
  · rcases pAlt_mem h1 with h2 | h2
    · try dsimp only at h2
      rcases hk : pTok isKvartiraWord ts with _ | ⟨w, r1⟩ <;> rw [hk] at h2
      · cases h2
      · obtain ⟨hts, -⟩ := pTok_eq hk
        subst hts
        try dsimp only at h2
        obtain ⟨hr1, hb⟩ := pTok_eq h2
        subst hr1
        exact ⟨isNNI_bound _ hb, ⟨[w, t], rfl⟩⟩
    · try dsimp only at h2
      rcases hn : pTok isNNI ts with _ | ⟨t1, r1⟩ <;> rw [hn] at h2
      · cases h2
      · try dsimp only at h2
        rcases hk : pTok isKvartiraWord r1 with _ | ⟨w, r2⟩ <;>
          rw [hk] at h2
        · cases h2
        · cases h2
          obtain ⟨hts, hb⟩ := pTok_eq hn
          subst hts
          obtain ⟨hr1, -⟩ := pTok_eq hk
          subst hr1
          exact ⟨isNNI_bound _ hb, ⟨[t, w], rfl⟩⟩

/-- Helper: a `FULL_HOUSE_VARIANT` match captures bounded house, corpus
and stroenie slots and consumes a prefix. -/
theorem pFHV_spec (ts : List Token) (hc : HCap) (rest : List Token)
    (hw : StreamWF ts) (h : pFHV ts = some (hc, rest)) :
    SpanOk hc.house ∧ NumOk hc.corpus ∧ NumOk hc.stroenie ∧
    rest.IsSuffix ts := by
  unfold pFHV at h
  rcases pAlt_mem h with h1 | h1
  · try dsimp only at h1
    rcases hd : pDOM ts with _ | ⟨sp, r1⟩ <;> rw [hd] at h1
    · cases h1
    · try dsimp only at h1
      obtain ⟨hok, hsuf1⟩ := pDOM_spec ts sp r1 hw hd
      rcases hst : pSTROENIE r1 with _ | ⟨st1, r2⟩ <;> rw [hst] at h1 <;>
        try dsimp only at h1
      · rcases hko : pKORPUS r1 with _ | ⟨ko1, r3⟩ <;> rw [hko] at h1 <;>
          try dsimp only at h1
        · cases h1
          refine ⟨hok, ?_, ?_, hsuf1⟩ <;> (intro t ht; cases ht)
        · cases h1
          obtain ⟨hbko, hsuf3⟩ := pKORPUS_spec r1 ko1 rest hko
          refine ⟨hok, ?_, ?_, hsuf3.trans hsuf1⟩
          · intro t ht
            cases ht
            exact hbko
          · intro t ht
            cases ht
      · obtain ⟨hbst, hsuf2⟩ := pSTROENIE_spec r1 st1 r2 hst
        rcases hko : pKORPUS r2 with _ | ⟨ko1, r3⟩ <;> rw [hko] at h1 <;>
          try dsimp only at h1
        · cases h1
          refine ⟨hok, ?_, ?_, hsuf2.trans hsuf1⟩
          · intro t ht
            cases ht
          · intro t ht
            cases ht
            exact hbst
        · cases h1
          obtain ⟨hbko, hsuf3⟩ := pKORPUS_spec r2 ko1 rest hko
          refine ⟨hok, ?_, ?_, (hsuf3.trans hsuf2).trans hsuf1⟩
          · intro t ht
            cases ht
            exact hbko
          · intro t ht
            cases ht
            exact hbst
  · try dsimp only at h1
    rcases hd : pDOM ts with _ | ⟨sp, r1⟩ <;> rw [hd] at h1
    · cases h1
    · try dsimp only at h1
      obtain ⟨hok, hsuf1⟩ := pDOM_spec ts sp r1 hw hd
      rcases hko : pKORPUS r1 with _ | ⟨ko1, r2⟩ <;> rw [hko] at h1 <;>
        try dsimp only at h1
      · cases h1
      · obtain ⟨hbko, hsuf2⟩ := pKORPUS_spec r1 ko1 r2 hko
        rcases hst : pSTROENIE r2 with _ | ⟨st1, r3⟩ <;> rw [hst] at h1 <;>
          try dsimp only at h1
        · cases h1
        · cases h1
          obtain ⟨hbst, hsuf3⟩ := pSTROENIE_spec r2 st1 rest hst
          refine ⟨hok, ?_, ?_, (hsuf3.trans hsuf2).trans hsuf1⟩
          · intro t ht
            cases ht
            exact hbko
          · intro t ht
            cases ht
            exact hbst

/-- Helper: a `BUILDING` match over a well-formed stream captures only
bounded house/corpus/stroenie/flat slots. -/
theorem pBUILDING_spec (ts : List Token) (b : BCap) (rest : List Token)
    (hw : StreamWF ts) (h : pBUILDING ts = some (b, rest)) :
    SpanOk b.house ∧ NumOk b.corpus ∧ NumOk b.stroenie ∧ NumOk b.flat := by
  unfold pBUILDING at h
  rcases pAlt_mem h with h1 | h1
  · try dsimp only at h1
    rcases hf : pFHV ts with _ | ⟨hc, r1⟩ <;> rw [hf] at h1
    · cases h1
    · simp only [Option.map_some'] at h1
      cases h1
      obtain ⟨hok, hko, hst, -⟩ := pFHV_spec ts hc _ hw hf
      refine ⟨hok, hko, hst, ?_⟩
      intro t ht
      cases ht
  · rcases pAlt_mem h1 with h2 | h2
    · try dsimp only at h2
      rcases hf : pFHV ts with _ | ⟨hc, r1⟩ <;> rw [hf] at h2
      · cases h2
      · try dsimp only at h2
        rcases hk : pKVARTIRA r1 with _ | ⟨fl, r2⟩ <;> rw [hk] at h2
        · cases h2
        · simp only [Option.map_some'] at h2
          cases h2
          obtain ⟨hok, hko, hst, -⟩ := pFHV_spec ts hc _ hw hf
          obtain ⟨hbf, -⟩ := pKVARTIRA_spec r1 fl _ hk
          refine ⟨hok, hko, hst, ?_⟩
          intro t ht
          cases ht
          exact hbf
    · rcases pAlt_mem h2 with h3 | h3
      · try dsimp only at h3
        rcases hd : pDOM ts with _ | ⟨sp, r1⟩ <;> rw [hd] at h3
        · cases h3
        · try dsimp only at h3
          rcases hp : pTok (fun t => isDash t || isComma t) r1 with _ |
            ⟨pc, r2⟩ <;> rw [hp] at h3
          · cases h3
          · try dsimp only at h3
            rcases hk : pKVARTIRA r2 with _ | ⟨fl, r3⟩ <;> rw [hk] at h3
            · cases h3
            · simp only [Option.map_some'] at h3
              cases h3
              obtain ⟨hok, -⟩ := pDOM_spec ts sp r1 hw hd
              obtain ⟨hbf, -⟩ := pKVARTIRA_spec r2 fl _ hk
              refine ⟨hok, ?_, ?_, ?_⟩
              · intro t ht
                cases ht
              · intro t ht
                cases ht
              · intro t ht
                cases ht
                exact hbf
      · try dsimp only at h3
        rcases hk : pKVARTIRA ts with _ | ⟨fl, r1⟩ <;> rw [hk] at h3
        · cases h3
        · try dsimp only at h3
          rcases hd : pDOM r1 with _ | ⟨sp, r2⟩ <;> rw [hd] at h3
          · cases h3
          · simp only [Option.map_some'] at h3
            cases h3
            obtain ⟨hbf, hsuf⟩ := pKVARTIRA_spec ts fl r1 hk
            obtain ⟨hok, -⟩ := pDOM_spec r1 sp _ (StreamWF_suffix hsuf hw)
              hd
            refine ⟨hok, ?_, ?_, ?_⟩
            · intro t ht
              cases ht
            · intro t ht
              cases ht
            · intro t ht
              cases ht
              exact hbf

/-- Helper: the `TYPE` rule hands back a suffix. -/
theorem sufP_pTYPE : SufP pTYPE := by
  intro ts a rest h
  unfold pTYPE at h
  cases ts with
  | nil => cases h
  | cons t r =>
    dsimp only at h
    rcases hv : typeConstAddr t with _ | v <;> rw [hv] at h
    · cases h
    · cases h
      exact List.suffix_cons t rest

/-- Helper: the `PERSON` rule hands back a suffix. -/
theorem sufP_pPERSON : SufP pPERSON :=
  sufP_pAlt (sufP_pSeqSpan (sufP_pTok1 _) (sufP_pTok1 _))
    (sufP_pAlt (sufP_pSeqSpan (sufP_pTok1 _) (sufP_pTok1 _))
      (sufP_pAlt (sufP_pSeqSpan (sufP_pTok1 _) (sufP_pTok1 _))
        (sufP_pTok1 _)))

/-- Helper: the `STREET_NAME` rule hands back a suffix. -/
theorem sufP_pStreetName : SufP pStreetName := by
  refine sufP_pAlts ?_
  intro p hp
  fin_cases hp <;>
    first
    | exact sufP_pTok1 _
    | exact sufP_pPERSON
    | exact sufP_pSeqSpan (sufP_pTok1 _) (sufP_pTok1 _)
    | exact sufP_pSeqSpan (sufP_pTok1 _) sufP_pPERSON
    | exact sufP_pSeqSpan sufP_pPERSON (sufP_pTok1 _)
    | exact sufP_pSeqSpan (sufP_pTok1 _)
        (sufP_pAlt (sufP_pTok1 _) (sufP_pTok1 _))
    | exact sufP_pSeqSpan (sufP_pTok1 _)
        (sufP_pSeqSpan (sufP_pTok1 _) (sufP_pTok1 _))
    | exact sufP_pSeqSpan (sufP_pTok1 _)
        (sufP_pSeqSpan (sufP_pTok1 _)
          (sufP_pSeqSpan (sufP_pTok1 _) (sufP_pTok1 _)))

/-- Helper: the `STREET` rule hands back a suffix. -/
theorem sufP_pSTREET : SufP pSTREET := by
  refine sufP_pAlt ?_ (sufP_pAlt ?_ (sufP_pAlt ?_ ?_))
  · intro ts a rest h
    dsimp only at h
    rcases h1 : pTYPE ts with _ | ⟨v, r1⟩ <;> rw [h1] at h
    · cases h
    · dsimp only at h
      rcases h2 : pStreetName r1 with _ | ⟨sp, r2⟩ <;> rw [h2] at h
      · cases h
      · simp only [Option.map_some'] at h
        cases h
        exact (sufP_pStreetName _ _ _ h2).trans (sufP_pTYPE _ _ _ h1)
  · exact sufP_map sufP_pStreetName (fun sp => (⟨sp, none⟩ : StreetFactT))
  · intro ts a rest h
    dsimp only at h
    rcases h1 : pStreetName ts with _ | ⟨sp, r1⟩ <;> rw [h1] at h
    · cases h
    · dsimp only at h
      rcases h2 : pTYPE r1 with _ | ⟨v, r2⟩ <;> rw [h2] at h
      · cases h
      · simp only [Option.map_some'] at h
        cases h
        exact (sufP_pTYPE _ _ _ h2).trans (sufP_pStreetName _ _ _ h1)
  · intro ts a rest h
    dsimp only at h
    rcases h1 : pTok1 isTerritoryPref ts with _ | ⟨sp0, r1⟩ <;> rw [h1] at h
    · cases h
    · dsimp only at h
      rcases h2 : pStreetName r1 with _ | ⟨sp, r2⟩ <;> rw [h2] at h
      · cases h
      · simp only [Option.map_some'] at h
        cases h
        exact (sufP_pStreetName _ _ _ h2).trans (sufP_pTok1 _ _ _ _ h1)

/-- Helper: the `INDEX` rule hands back a suffix. -/
theorem sufP_pINDEX : SufP pINDEX :=
  sufP_map (sufP_pTok _) (fun _ => ())

/-- Helper: the `COUNTRY` rule hands back a suffix. -/
theorem sufP_pCOUNTRY : SufP pHIGHLEVEL.pCOUNTRY :=
  sufP_map (sufP_pTok _) (fun _ => ())

/-- Helper: a two-keyword sequence rule hands back a suffix. -/
theorem sufP_tokPair (pa pb : Token → Bool) :
    SufP (fun ts => match pTok pa ts with
      | some (_, r1) => (pTok pb r1).map (fun p => ((), p.2))
      | none => none) := by
  intro ts a rest h
  dsimp only at h
  rcases h1 : pTok pa ts with _ | ⟨u, r1⟩ <;> rw [h1] at h
  · cases h
  · dsimp only at h
    rcases h2 : pTok pb r1 with _ | ⟨v, r2⟩ <;> rw [h2] at h
    · cases h
    · simp only [Option.map_some'] at h
      cases h
      exact (sufP_pTok _ _ _ _ h2).trans (sufP_pTok _ _ _ _ h1)

/-- Helper: the `REGION` rule hands back a suffix. -/
theorem sufP_pREGION : SufP pREGION :=
  sufP_pAlt (sufP_map (sufP_pTok _) (fun _ => ()))
    (sufP_pAlt (sufP_tokPair _ _) (sufP_tokPair _ _))

/-- Helper: the `CITY` rule hands back a suffix. -/
theorem sufP_pCITY : SufP pCITY :=
  sufP_pAlt (sufP_tokPair _ _)
    (sufP_pAlt (sufP_tokPair _ _) (sufP_map (sufP_pTok _) (fun _ => ())))

/-- Helper: the `HIGHLEVEL_PARTS` rule hands back a suffix. -/
theorem sufP_pHIGHLEVEL : SufP pHIGHLEVEL :=
  sufP_pAlt (sufP_pSeqU sufP_pINDEX (sufP_pSeqU sufP_pCOUNTRY
      (sufP_pSeqU sufP_pREGION sufP_pCITY)))
  (sufP_pAlt (sufP_pSeqU sufP_pCOUNTRY (sufP_pSeqU sufP_pINDEX
      (sufP_pSeqU sufP_pREGION sufP_pCITY)))
  (sufP_pAlt (sufP_pSeqU sufP_pINDEX (sufP_pSeqU sufP_pCOUNTRY sufP_pCITY))
  (sufP_pAlt (sufP_pSeqU sufP_pINDEX (sufP_pSeqU sufP_pREGION sufP_pCITY))
  (sufP_pAlt (sufP_pSeqU sufP_pINDEX sufP_pCOUNTRY)
  (sufP_pAlt (sufP_pSeqU sufP_pCOUNTRY (sufP_pSeqU sufP_pREGION sufP_pCITY))
  (sufP_pAlt (sufP_pSeqU sufP_pINDEX sufP_pCITY)
  (sufP_pAlt (sufP_pSeqU sufP_pREGION sufP_pCITY)
  (sufP_pAlt sufP_pINDEX
  (sufP_pAlt sufP_pCOUNTRY
  (sufP_pAlt sufP_pCITY sufP_pREGION))))))))))

/-- Helper: every successful match of the address grammar over a
well-formed token stream has bounded building-section captures. -/
theorem pADDRESS_spec (ts : List Token) (f : AddressFactT)
    (hw : StreamWF ts) (h : pADDRESS ts = some f) : FactOk f := by
  unfold pADDRESS at h
  have hw0 : StreamWF (match pHIGHLEVEL ts with
      | some x => x.2
      | none => ts) := by
    rcases hhl : pHIGHLEVEL ts with _ | ⟨u, r⟩
    · exact hw
    · exact StreamWF_suffix (sufP_pHIGHLEVEL _ _ _ hhl) hw
  rcases hhl : pHIGHLEVEL ts with _ | ⟨u, r⟩ <;> rw [hhl] at h hw0 <;>
    dsimp only at h hw0
  · rcases hst : pSTREET ts with _ | ⟨sf, r1⟩ <;> rw [hst] at h
    · cases h
    · dsimp only at h
      have hw1 : StreamWF r1 :=
        StreamWF_suffix (sufP_pSTREET _ _ _ hst) hw0
      rcases hb : pBUILDING r1 with _ | ⟨b, r2⟩ <;> rw [hb] at h
      · cases h
      · cases h
        obtain ⟨hok, hko, hst2, hfl⟩ := pBUILDING_spec r1 b r2 hw1 hb
        refine ⟨?_, hko, hst2, hfl⟩
        intro span hsp
        cases hsp
        exact hok
  · rcases hst : pSTREET r with _ | ⟨sf, r1⟩ <;> rw [hst] at h
    · cases h
    · dsimp only at h
      have hw1 : StreamWF r1 :=
        StreamWF_suffix (sufP_pSTREET _ _ _ hst) hw0
      rcases hb : pBUILDING r1 with _ | ⟨b, r2⟩ <;> rw [hb] at h
      · cases h
      · cases h
        obtain ⟨hok, hko, hst2, hfl⟩ := pBUILDING_spec r1 b r2 hw1 hb
        refine ⟨?_, hko, hst2, hfl⟩
        intro span hsp
        cases hsp
        exact hok

/-- C10: the address grammar only accepts house, corpus, stroenie and
flat numbers between 0 and 1001 inclusive — every captured
building-section number of any successful match of a tokenized string
is in `[0, 1001]` — and an otherwise well-formed address whose house
number is 1002 makes `Address.fromStr` raise the cannot-parse failure
(while the same address with house 100 parses). -/
theorem building_numbers_bounded :
    (∀ (m : Morph) (s : String) (f : AddressFactT),
      pADDRESS (tokenize m s) = some f → FactOk f) ∧
    Address.fromStr mTag "ул советский 1002" = .error .unparseable ∧
    (Address.fromStr mTag "ул советский 100").isOk = true := by
  refine ⟨?_, by rfl, by rfl⟩
  intro m s f h
  exact pADDRESS_spec _ f (tokenize_wf m s) h

/-- C10 witness: the bound theorem applied to the successful parse of a
concrete address. -/
theorem building_numbers_bounded_witness :
    FactOk ((pADDRESS (tokenize mTag "ул советский 100")).getD
      ⟨none, none, none, none, none⟩) :=
  building_numbers_bounded.1 mTag "ул советский 100" _ (by rfl)
